import Mathlib

/-!
Modbus TCP adaptor: register decoder and sensor poller.

A shallow embedding of `modbus-util/modbusreader.go` (the register decoder
`parseRegisterValue` and the acquisition loop `ReadSensors`) and of the
channel wiring in `main.go`, followed by theorems about them.

Conventions of the embedding:

* a Go `byte` is a `Fin 256`; a `[]byte` and a Go `string` are lists of bytes;
* Go fixed-width integers are `Nat` / `Int` values, with the reduction modulo
  `2 ^ w` written out where the Go operation can wrap;
* a Go expression that can raise a run-time error (an index out of range)
  yields `none`;
* a `float32` / `float64` is carried as its IEEE-754 bit pattern;
* the outside world (connection and read outcomes, the clock, the stop
  channel) is an explicit argument, and the effects of the code are the list
  of events it performs, in order.
-/

namespace ModbusTcp

/-- A Go `byte`. -/
abbrev Byte := Fin 256

/-- A capture instant, as returned by `time.Now().UTC()`: an instant of the
running clock, which `encoding/json` renders in RFC 3339 form. -/
abbrev Time := Nat

/-- The dynamic values that the code stores in an `interface{}`: one
constructor per Go type that occurs. Floats carry their bit pattern. A Go
`string` that the code writes as text (a literal, a configured name, the
output of `fmt.Sprintf`) is `string`; the conversion `string(data)` of a byte
slice, which need not be valid UTF-8, is `stringOfBytes`. -/
inductive Value where
  | uint8 (n : Nat)
  | int8 (i : Int)
  | uint16 (n : Nat)
  | int16 (i : Int)
  | uint32 (n : Nat)
  | int32 (i : Int)
  | uint64 (n : Nat)
  | int64 (i : Int)
  | float32 (bits : Nat)
  | float64 (bits : Nat)
  | bool (b : Bool)
  | string (s : String)
  | stringOfBytes (b : List Byte)
  | bytes (b : List Byte)
  | time (t : Time)
  deriving DecidableEq, Repr

/-- Go conversion of an unsigned `w`-bit value to the signed type of the same
width (`int8(x)`, `int16(x)`, ...): the bit pattern is kept. -/
def toSigned (w : Nat) (x : Nat) : Int :=
  if x % 2 ^ w < 2 ^ (w - 1) then (x % 2 ^ w : Nat) else ((x % 2 ^ w : Nat) : Int) - 2 ^ w

namespace binary
namespace BigEndian

/-- Go `binary.BigEndian.Uint16`: `uint16(b[1]) | uint16(b[0])<<8`. -/
def Uint16 (b : List Byte) : Option Nat := do
  let b1 ← b[1]?
  let b0 ← b[0]?
  pure (b1.val ||| (b0.val <<< 8))

/-- Go `binary.BigEndian.Uint32`:
`uint32(b[3]) | uint32(b[2])<<8 | uint32(b[1])<<16 | uint32(b[0])<<24`. -/
def Uint32 (b : List Byte) : Option Nat := do
  let b3 ← b[3]?
  let b2 ← b[2]?
  let b1 ← b[1]?
  let b0 ← b[0]?
  pure (b3.val ||| (b2.val <<< 8) ||| (b1.val <<< 16) ||| (b0.val <<< 24))

/-- Go `binary.BigEndian.Uint64`: the eight bytes or-ed together, `b[7]`
unshifted up to `b[0]` shifted left by 56. -/
def Uint64 (b : List Byte) : Option Nat := do
  let b7 ← b[7]?
  let b6 ← b[6]?
  let b5 ← b[5]?
  let b4 ← b[4]?
  let b3 ← b[3]?
  let b2 ← b[2]?
  let b1 ← b[1]?
  let b0 ← b[0]?
  pure (b7.val ||| (b6.val <<< 8) ||| (b5.val <<< 16) ||| (b4.val <<< 24) |||
    (b3.val <<< 32) ||| (b2.val <<< 40) ||| (b1.val <<< 48) ||| (b0.val <<< 56))

end BigEndian
end binary

/-- The digit table `udigits` of Go's `fmt` that the verb `%X` indexes. -/
def udigits : List Char :=
  ['0', '1', '2', '3', '4', '5', '6', '7', '8', '9', 'A', 'B', 'C', 'D', 'E', 'F']

/-- Go `fmt.Sprintf("%X", data)` for a byte slice (`fmtSbx` in the standard
library): starting from an empty buffer, for each byte `c` in turn the two
characters `digits[c>>4]`, `digits[c&0xF]` are appended. -/
def sprintfX (data : List Byte) : String :=
  String.mk (data.foldl
    (fun buf c => buf ++ [udigits.getD (c.val >>> 4) '?', udigits.getD (c.val &&& 0xF) '?']) [])

/-- The local helper `bcdToUint` of `parseRegisterValue`; `val` is a `uint64`,
so every assignment is reduced modulo `2 ^ 64`. -/
def bcdToUint (b : List Byte) : Nat :=
  b.foldl (fun val d =>
    let hi := (d.val >>> 4) &&& 0x0F
    let lo := d.val &&& 0x0F
    (val * 100 + hi * 10 + lo) % 2 ^ 64) 0

/-- The function `parseRegisterValue`; `none` stands for a run-time error. A
`case` whose `if` is not taken falls out of the `switch` to the final
`return data`. -/
def parseRegisterValue (data : List Byte) (dataType : String) : Option Value :=
  if dataType = "hex" then some (Value.string (sprintfX data))
  else if dataType = "bcd" then some (Value.uint64 (bcdToUint data))
  else if dataType = "uint8" then
    if data.length ≥ 1 then (data[0]?).map (fun b => Value.uint8 b.val)
    else some (Value.bytes data)
  else if dataType = "int8" then
    if data.length ≥ 1 then (data[0]?).map (fun b => Value.int8 (toSigned 8 b.val))
    else some (Value.bytes data)
  else if dataType = "uint16" then
    if data.length ≥ 2 then (binary.BigEndian.Uint16 data).map Value.uint16
    else some (Value.bytes data)
  else if dataType = "int16" then
    if data.length ≥ 2 then (binary.BigEndian.Uint16 data).map (fun x => Value.int16 (toSigned 16 x))
    else some (Value.bytes data)
  else if dataType = "uint32" then
    if data.length ≥ 4 then (binary.BigEndian.Uint32 data).map Value.uint32
    else some (Value.bytes data)
  else if dataType = "int32" then
    if data.length ≥ 4 then (binary.BigEndian.Uint32 data).map (fun x => Value.int32 (toSigned 32 x))
    else some (Value.bytes data)
  else if dataType = "uint64" then
    if data.length ≥ 8 then (binary.BigEndian.Uint64 data).map Value.uint64
    else some (Value.bytes data)
  else if dataType = "int64" then
    if data.length ≥ 8 then (binary.BigEndian.Uint64 data).map (fun x => Value.int64 (toSigned 64 x))
    else some (Value.bytes data)
  else if dataType = "float32" then
    if data.length ≥ 4 then (binary.BigEndian.Uint32 data).map Value.float32
    else some (Value.bytes data)
  else if dataType = "float64" then
    if data.length ≥ 8 then (binary.BigEndian.Uint64 data).map Value.float64
    else some (Value.bytes data)
  else if dataType = "bool" then
    if data.length ≥ 1 then (data[0]?).map (fun b => Value.bool (b.val != 0))
    else some (Value.bytes data)
  else if dataType = "string" then some (Value.stringOfBytes data)
  else some (Value.bytes data)

/-! ## The sensor poller and the acquisition loop -/

/-- The struct `Sensor`. -/
structure Sensor where
  RegisterName : String
  SlaveID : Byte
  ModbusAddress : Nat
  DataType : String
  Size : Nat
  IP : String
  deriving DecidableEq, Repr

/-- The struct `ModbusConfig`. -/
structure ModbusConfig where
  PollingInterval : Int
  Timeout : Int
  Sensors : List Sensor
  deriving DecidableEq, Repr

/-- A `map[string]interface` literal, entry by entry. -/
abbrev Msg := List (String × Value)

/-- The JSON object that `json.Marshal` produces for a message, member by
member: each member keeps its key and stands for the JSON encoding of its
value. The byte-level rendering and the order of the members are not
modelled. -/
abbrev Payload := List (String × Value)

/-- Whether `encoding/json` encodes the value. Its float encoder rejects a
NaN or an infinity (`UnsupportedValueError`), that is a bit pattern whose
exponent field is all ones; every other value that occurs is encodable. -/
def jsonSupported : Value → Bool
  | Value.float32 bits => (bits >>> 23) &&& 0xFF != 0xFF
  | Value.float64 bits => (bits >>> 52) &&& 0x7FF != 0x7FF
  | _ => true

/-- Go `json.Marshal` on a message; `none` stands for a non-nil error. -/
def Marshal (msg : Msg) : Option Payload :=
  if msg.all (fun kv => jsonSupported kv.2) then some msg else none

/-- What the outside world answers during one poll step: whether
`handler.Connect()` returns an error, what `ReadHoldingRegisters` returns
(`none` for an error), and the clock reading of `time.Now().UTC()`. -/
structure PollOutcome where
  connectErr : Bool
  readResult : Option (List Byte)
  now : Time
  deriving DecidableEq, Repr

/-- The effects of `ReadSensors`, in the order in which it performs them. -/
inductive Event where
  | connect (address : String) (slaveId : Byte) (timeout : Nat)
  | readHoldingRegisters (address quantity : Nat)
  | close
  | logConnectError (register : String)
  | logReadError (register : String)
  | logMarshalError (register : String)
  | logStopping
  | send (payload : Payload)
  | sleep (interval : Nat)
  deriving DecidableEq, Repr

/-- The body of the loop `for _, sensor := range config.Sensors` of
`ReadSensors`: one poll step. `none` stands for a run-time error. -/
def pollSensor (sensor : Sensor) (timeout : Nat) (w : PollOutcome) : Option (List Event) :=
  let connect := Event.connect (sensor.IP ++ ":502") sensor.SlaveID timeout
  if w.connectErr then
    let msg : Msg := [("register", Value.string sensor.RegisterName),
      ("value", Value.string "abc"), ("ts", Value.time w.now)]
    match Marshal msg with
    | some payload => some [connect, Event.logConnectError sensor.RegisterName, Event.send payload]
    | none => some [connect, Event.logConnectError sensor.RegisterName]
  else
    let read := Event.readHoldingRegisters sensor.ModbusAddress sensor.Size
    match w.readResult with
    | none => some [connect, read, Event.close, Event.logReadError sensor.RegisterName]
    | some results =>
      match parseRegisterValue results sensor.DataType with
      | none => none
      | some value =>
        let msg : Msg := [("register", Value.string sensor.RegisterName),
          ("value", value), ("starttimestamp", Value.time w.now)]
        match Marshal msg with
        | some payload => some [connect, read, Event.close, Event.send payload]
        | none => some [connect, read, Event.close, Event.logMarshalError sensor.RegisterName]

/-- The loop `for _, sensor := range config.Sensors`: one polling cycle.
`world i` is what the outside world answers to the poll of the sensor at
position `i`. -/
def pollCycle (timeout : Nat) : List Sensor → (Nat → PollOutcome) → Option (List Event)
  | [], _ => some []
  | sensor :: rest, world =>
    match pollSensor sensor timeout (world 0) with
    | none => none
    | some evs =>
      match pollCycle timeout rest (fun i => world (i + 1)) with
      | none => none
      | some more => some (evs ++ more)

/-- The function `ReadSensors`, for at most `cycles` iterations of its outer
`for`: `stop k` tells whether the stop channel is ready at the `select` of
iteration `k`, and `world k` is the outside world during cycle `k`. When the
iterations are used up the events performed so far are returned. -/
def ReadSensors (config : ModbusConfig) (interval timeout : Nat) :
    (Nat → Bool) → (Nat → Nat → PollOutcome) → Nat → Option (List Event)
  | _, _, 0 => some []
  | stop, world, cycles + 1 =>
    if stop 0 then some [Event.logStopping]
    else
      match pollCycle timeout config.Sensors (world 0) with
      | none => none
      | some evs =>
        match ReadSensors config interval timeout (fun k => stop (k + 1)) (fun k => world (k + 1)) cycles with
        | none => none
        | some more => some (evs ++ Event.sleep interval :: more)

/-- The payloads put on the output channel (`out <- payload`), in order. -/
def sends : List Event → List Payload
  | [] => []
  | Event.send payload :: evs => payload :: sends evs
  | _ :: evs => sends evs

/-- The holding-register reads issued, in order. -/
def reads : List Event → List (Nat × Nat)
  | [] => []
  | Event.readHoldingRegisters address quantity :: evs => (address, quantity) :: reads evs
  | _ :: evs => reads evs

/-- The envelopes that one poll step puts on the output channel. -/
def sensorOutput (sensor : Sensor) (timeout : Nat) (w : PollOutcome) : List Payload :=
  match pollSensor sensor timeout w with
  | some evs => sends evs
  | none => []

/-- The keys of a JSON object. -/
def Payload.keys (p : Payload) : List String := p.map Prod.fst

/-- The register name carried by an envelope. -/
def Payload.register (p : Payload) : Option String :=
  match p.lookup "register" with
  | some (Value.string name) => some name
  | _ => none

/-! ## The delivery channel of `main` -/

/-- The buffer size of `readingsCh := make(chan []byte, 100)`. -/
def readingsChCap : Nat := 100

/-- The producer `ReadSensors`, the channel and the consumer goroutine of
`main`: what the producer has still to send, the channel buffer (oldest
first), and what the consumer has received and passed to `Publish`. -/
structure Pipeline where
  pending : List Payload
  buffer : List Payload
  published : List Payload
  deriving DecidableEq, Repr

/-- The two moves of the pipeline: the producer performs `out <- payload`,
or the consumer takes the next `payload` of `range readingsCh`. -/
inductive Move where
  | send
  | receive
  deriving DecidableEq, Repr

/-- One move of the pipeline over a channel of buffer size `cap`; `none` when
the move cannot be made now. A send on a full buffer and a receive on an
empty one block (Go channel semantics), and the producer's send is a plain
send statement, outside any `select`, so it has no other way out. -/
def Pipeline.step (cap : Nat) : Move → Pipeline → Option Pipeline
  | Move.send, st =>
    match st.pending with
    | [] => none
    | p :: rest =>
      if st.buffer.length < cap then
        some { pending := rest, buffer := st.buffer ++ [p], published := st.published }
      else none
  | Move.receive, st =>
    match st.buffer with
    | [] => none
    | p :: rest =>
      some { pending := st.pending, buffer := rest, published := st.published ++ [p] }

/-- A sequence of moves, each possible when it is made. -/
def Pipeline.run (cap : Nat) : List Move → Pipeline → Option Pipeline
  | [], st => some st
  | m :: ms, st =>
    match Pipeline.step cap m st with
    | none => none
    | some st1 => Pipeline.run cap ms st1

/-- The pipeline at start-up, with everything still to be sent. -/
def Pipeline.start (toSend : List Payload) : Pipeline :=
  { pending := toSend, buffer := [], published := [] }

/-! ## Reference readings used in the statements -/

/-- The big-endian integer formed from the first `w` bytes of `data`:
the sum of `data[i] * 256 ^ (w - 1 - i)` for `i < w`. -/
def bigEndianValue (w : Nat) (data : List Byte) : Nat :=
  ∑ i in Finset.range w, (data.getD i 0).val * 256 ^ (w - 1 - i)

/-- The integer `v` is the `w`-bit pattern `u` read in two's complement: it
lies in the signed `w`-bit range and differs from `u` by a multiple of `2 ^ w`. -/
def IsTwosComplement (w : Nat) (u : Nat) (v : Int) : Prop :=
  -(2 ^ (w - 1) : Int) ≤ v ∧ v < 2 ^ (w - 1) ∧ (2 ^ w : Int) ∣ (v - u)

/-- The accumulation of the specification for BCD, over the natural numbers:
start from 0 and, for each byte left to right, set
`value = value*100 + hi*10 + lo`, with `hi` and `lo` the byte's high and low
nibble. -/
def bcdAccumulate (data : List Byte) : Nat :=
  data.foldl (fun value d => value * 100 + (d.val / 16) * 10 + d.val % 16) 0

/-- The nibbles of a byte sequence in order, the high one of each byte first. -/
def nibbles (data : List Byte) : List Nat :=
  data.flatMap (fun d => [d.val / 16, d.val % 16])

/-- The data-type tags that `parseRegisterValue` recognises. -/
def recognisedTags : List String :=
  ["hex", "bcd", "uint8", "int8", "uint16", "int16", "uint32", "int32", "uint64", "int64",
    "float32", "float64", "bool", "string"]

/-- The byte width that a fixed-width tag needs: `uint8`/`int8`/`bool` need 1,
`uint16`/`int16` need 2, `uint32`/`int32`/`float32` need 4 and
`uint64`/`int64`/`float64` need 8. -/
def requiredWidth (tag : String) : Option Nat :=
  if tag = "uint8" ∨ tag = "int8" ∨ tag = "bool" then some 1
  else if tag = "uint16" ∨ tag = "int16" then some 2
  else if tag = "uint32" ∨ tag = "int32" ∨ tag = "float32" then some 4
  else if tag = "uint64" ∨ tag = "int64" ∨ tag = "float64" then some 8
  else none

/-- The character for a nibble in uppercase hexadecimal: `0`-`9`, then `A`-`F`. -/
def upperHexDigit (n : Nat) : Char :=
  if n < 10 then Char.ofNat (48 + n) else Char.ofNat (55 + n)

/-- The bytes decode, under the tag, to a `float32` or `float64` that is a NaN
or an infinity: the tag is a float tag, enough bytes are present, and the
exponent field of the big-endian bit pattern (8 bits above the 23 mantissa
bits, or 11 bits above the 52 mantissa bits) is all ones. -/
def decodesToNonFiniteFloat (data : List Byte) (tag : String) : Prop :=
  (tag = "float32" ∧ 4 ≤ data.length ∧ bigEndianValue 4 data / 2 ^ 23 % 2 ^ 8 = 2 ^ 8 - 1) ∨
  (tag = "float64" ∧ 8 ≤ data.length ∧ bigEndianValue 8 data / 2 ^ 52 % 2 ^ 11 = 2 ^ 11 - 1)

/-! ## Decoder: auxiliary lemmas -/

theorem or_shiftLeft_eq_add (a b i : Nat) (h : a < 2 ^ i) : a ||| (b <<< i) = a + b * 2 ^ i := by
  rw [Nat.lor_comm, Nat.shiftLeft_eq, Nat.mul_comm b, ← Nat.mul_add_lt_is_or h]
  ring

theorem Uint16_eq_bigEndianValue (b0 b1 : Byte) (rest : List Byte) :
    binary.BigEndian.Uint16 (b0 :: b1 :: rest) = some (bigEndianValue 2 (b0 :: b1 :: rest)) := by
  have h0 := b0.isLt
  have h1 := b1.isLt
  simp only [binary.BigEndian.Uint16, bigEndianValue, Finset.sum_range_succ, Finset.sum_range_zero]
  simp only [List.getElem?_cons_succ, List.getElem?_cons_zero, Option.bind_eq_bind, Option.some_bind,
    Option.pure_def, List.getD_cons_succ, List.getD_cons_zero, Option.some.injEq]
  rw [or_shiftLeft_eq_add _ _ 8 (by omega)]
  norm_num
  ring

theorem Uint32_eq_bigEndianValue (b0 b1 b2 b3 : Byte) (rest : List Byte) :
    binary.BigEndian.Uint32 (b0 :: b1 :: b2 :: b3 :: rest) =
      some (bigEndianValue 4 (b0 :: b1 :: b2 :: b3 :: rest)) := by
  have h0 := b0.isLt
  have h1 := b1.isLt
  have h2 := b2.isLt
  have h3 := b3.isLt
  simp only [binary.BigEndian.Uint32, bigEndianValue, Finset.sum_range_succ, Finset.sum_range_zero]
  simp only [List.getElem?_cons_succ, List.getElem?_cons_zero, Option.bind_eq_bind, Option.some_bind,
    Option.pure_def, List.getD_cons_succ, List.getD_cons_zero, Option.some.injEq]
  rw [or_shiftLeft_eq_add _ _ 8 (by omega), or_shiftLeft_eq_add _ _ 16 (by omega),
    or_shiftLeft_eq_add _ _ 24 (by omega)]
  norm_num
  ring

theorem Uint64_eq_bigEndianValue (b0 b1 b2 b3 b4 b5 b6 b7 : Byte) (rest : List Byte) :
    binary.BigEndian.Uint64 (b0 :: b1 :: b2 :: b3 :: b4 :: b5 :: b6 :: b7 :: rest) =
      some (bigEndianValue 8 (b0 :: b1 :: b2 :: b3 :: b4 :: b5 :: b6 :: b7 :: rest)) := by
  have h0 := b0.isLt
  have h1 := b1.isLt
  have h2 := b2.isLt
  have h3 := b3.isLt
  have h4 := b4.isLt
  have h5 := b5.isLt
  have h6 := b6.isLt
  have h7 := b7.isLt
  simp only [binary.BigEndian.Uint64, bigEndianValue, Finset.sum_range_succ, Finset.sum_range_zero]
  simp only [List.getElem?_cons_succ, List.getElem?_cons_zero, Option.bind_eq_bind, Option.some_bind,
    Option.pure_def, List.getD_cons_succ, List.getD_cons_zero, Option.some.injEq]
  rw [or_shiftLeft_eq_add _ _ 8 (by omega), or_shiftLeft_eq_add _ _ 16 (by omega),
    or_shiftLeft_eq_add _ _ 24 (by omega), or_shiftLeft_eq_add _ _ 32 (by omega),
    or_shiftLeft_eq_add _ _ 40 (by omega), or_shiftLeft_eq_add _ _ 48 (by omega),
    or_shiftLeft_eq_add _ _ 56 (by omega)]
  norm_num
  ring

theorem toSigned_isTwosComplement (w : Nat) (hw : 0 < w) (x : Nat) :
    IsTwosComplement w x (toSigned w x) := by
  obtain ⟨k, rfl⟩ : ∃ k, w = k + 1 := ⟨w - 1, by omega⟩
  have hpow : (2 : Int) ^ (k + 1) = 2 * 2 ^ k := by ring
  have hpowN : (2 : Nat) ^ (k + 1) = 2 * 2 ^ k := by ring
  have hlt : x % 2 ^ (k + 1) < 2 ^ (k + 1) := Nat.mod_lt _ (by positivity)
  have hdvd : (2 ^ (k + 1) : Int) ∣ ((x % 2 ^ (k + 1) : Nat) : Int) - x := by
    have := Nat.mod_add_div x (2 ^ (k + 1))
    refine ⟨-((x / 2 ^ (k + 1) : Nat) : Int), ?_⟩
    have h2 : ((x % 2 ^ (k + 1) : Nat) : Int) + ((2 ^ (k + 1) : Nat) : Int) * ((x / 2 ^ (k + 1) : Nat) : Int) = x := by
      exact_mod_cast this
    push_cast at h2 ⊢
    linarith
  have hp : (0 : Int) < 2 ^ k := by positivity
  unfold toSigned IsTwosComplement
  simp only [Nat.add_sub_cancel]
  split
  · rename_i h
    refine ⟨by have : (0 : Int) ≤ ((x % 2 ^ (k + 1) : Nat) : Int) := Int.ofNat_nonneg _
               linarith, by exact_mod_cast h, hdvd⟩
  · rename_i h
    have h1 : (2 ^ k : Int) ≤ ((x % 2 ^ (k + 1) : Nat) : Int) := by
      have := Nat.le_of_not_lt h
      exact_mod_cast this
    have h2 : ((x % 2 ^ (k + 1) : Nat) : Int) < 2 * 2 ^ k := by
      rw [← hpow]; exact_mod_cast hlt
    refine ⟨by rw [hpow]; linarith, by rw [hpow]; linarith, ?_⟩
    have : ((x % 2 ^ (k + 1) : Nat) : Int) - 2 ^ (k + 1) - x =
        (((x % 2 ^ (k + 1) : Nat) : Int) - x) - 2 ^ (k + 1) := by ring
    rw [this]
    exact dvd_sub hdvd (dvd_refl _)

theorem exists_cons_of_succ_le_length (data : List Byte) (n : Nat) (h : n + 1 ≤ data.length) :
    ∃ b rest, data = b :: rest ∧ n ≤ rest.length := by
  cases data with
  | nil => simp at h
  | cons b rest => exact ⟨b, rest, rfl, by simpa using h⟩

theorem bigEndianValue_one (b0 : Byte) (rest : List Byte) :
    bigEndianValue 1 (b0 :: rest) = b0.val := by
  simp [bigEndianValue]

/-! ## Decoder: fixed-width integers -/

/-- C1: for each of the eight integer tags, of byte width `w`, and every byte
sequence with at least `w` bytes, `parseRegisterValue` returns the big-endian
integer formed from the first `w` bytes (the sum of `data[i] * 256^(w-1-i)`)
for an unsigned tag, and that `w`-byte pattern read in two's complement for a
signed tag; the bytes `[0x01, 0x02]` decode to 258 as `uint16` and as `int16`. -/
theorem parseRegisterValue_integer_bigEndian (data : List Byte) :
    (1 ≤ data.length →
      parseRegisterValue data "uint8" = some (Value.uint8 (bigEndianValue 1 data))) ∧
    (1 ≤ data.length → ∃ v, parseRegisterValue data "int8" = some (Value.int8 v) ∧
      IsTwosComplement 8 (bigEndianValue 1 data) v) ∧
    (2 ≤ data.length →
      parseRegisterValue data "uint16" = some (Value.uint16 (bigEndianValue 2 data))) ∧
    (2 ≤ data.length → ∃ v, parseRegisterValue data "int16" = some (Value.int16 v) ∧
      IsTwosComplement 16 (bigEndianValue 2 data) v) ∧
    (4 ≤ data.length →
      parseRegisterValue data "uint32" = some (Value.uint32 (bigEndianValue 4 data))) ∧
    (4 ≤ data.length → ∃ v, parseRegisterValue data "int32" = some (Value.int32 v) ∧
      IsTwosComplement 32 (bigEndianValue 4 data) v) ∧
    (8 ≤ data.length →
      parseRegisterValue data "uint64" = some (Value.uint64 (bigEndianValue 8 data))) ∧
    (8 ≤ data.length → ∃ v, parseRegisterValue data "int64" = some (Value.int64 v) ∧
      IsTwosComplement 64 (bigEndianValue 8 data) v) ∧
    parseRegisterValue [0x01, 0x02] "uint16" = some (Value.uint16 258) ∧
    parseRegisterValue [0x01, 0x02] "int16" = some (Value.int16 258) := by
  refine ⟨?_, ?_, ?_, ?_, ?_, ?_, ?_, ?_, by decide, by decide⟩
  · intro h
    obtain ⟨b0, r0, rfl, -⟩ := exists_cons_of_succ_le_length data 0 h
    simp [parseRegisterValue, bigEndianValue_one]
  · intro h
    obtain ⟨b0, r0, rfl, -⟩ := exists_cons_of_succ_le_length data 0 h
    refine ⟨toSigned 8 b0.val, by simp [parseRegisterValue], ?_⟩
    rw [bigEndianValue_one]
    exact toSigned_isTwosComplement 8 (by decide) _
  · intro h
    obtain ⟨b0, r0, rfl, h1⟩ := exists_cons_of_succ_le_length data 1 h
    obtain ⟨b1, r1, rfl, -⟩ := exists_cons_of_succ_le_length r0 0 h1
    simp [parseRegisterValue, Uint16_eq_bigEndianValue]
  · intro h
    obtain ⟨b0, r0, rfl, h1⟩ := exists_cons_of_succ_le_length data 1 h
    obtain ⟨b1, r1, rfl, -⟩ := exists_cons_of_succ_le_length r0 0 h1
    exact ⟨toSigned 16 (bigEndianValue 2 (b0 :: b1 :: r1)),
      by simp [parseRegisterValue, Uint16_eq_bigEndianValue],
      toSigned_isTwosComplement 16 (by decide) _⟩
  · intro h
    obtain ⟨b0, r0, rfl, h3⟩ := exists_cons_of_succ_le_length data 3 h
    obtain ⟨b1, r1, rfl, h2⟩ := exists_cons_of_succ_le_length r0 2 h3
    obtain ⟨b2, r2, rfl, h1⟩ := exists_cons_of_succ_le_length r1 1 h2
    obtain ⟨b3, r3, rfl, -⟩ := exists_cons_of_succ_le_length r2 0 h1
    simp [parseRegisterValue, Uint32_eq_bigEndianValue]
  · intro h
    obtain ⟨b0, r0, rfl, h3⟩ := exists_cons_of_succ_le_length data 3 h
    obtain ⟨b1, r1, rfl, h2⟩ := exists_cons_of_succ_le_length r0 2 h3
    obtain ⟨b2, r2, rfl, h1⟩ := exists_cons_of_succ_le_length r1 1 h2
    obtain ⟨b3, r3, rfl, -⟩ := exists_cons_of_succ_le_length r2 0 h1
    exact ⟨toSigned 32 (bigEndianValue 4 (b0 :: b1 :: b2 :: b3 :: r3)),
      by simp [parseRegisterValue, Uint32_eq_bigEndianValue],
      toSigned_isTwosComplement 32 (by decide) _⟩
  · intro h
    obtain ⟨b0, r0, rfl, h7⟩ := exists_cons_of_succ_le_length data 7 h
    obtain ⟨b1, r1, rfl, h6⟩ := exists_cons_of_succ_le_length r0 6 h7
    obtain ⟨b2, r2, rfl, h5⟩ := exists_cons_of_succ_le_length r1 5 h6
    obtain ⟨b3, r3, rfl, h4⟩ := exists_cons_of_succ_le_length r2 4 h5
    obtain ⟨b4, r4, rfl, h3⟩ := exists_cons_of_succ_le_length r3 3 h4
    obtain ⟨b5, r5, rfl, h2⟩ := exists_cons_of_succ_le_length r4 2 h3
    obtain ⟨b6, r6, rfl, h1⟩ := exists_cons_of_succ_le_length r5 1 h2
    obtain ⟨b7, r7, rfl, -⟩ := exists_cons_of_succ_le_length r6 0 h1
    simp [parseRegisterValue, Uint64_eq_bigEndianValue]
  · intro h
    obtain ⟨b0, r0, rfl, h7⟩ := exists_cons_of_succ_le_length data 7 h
    obtain ⟨b1, r1, rfl, h6⟩ := exists_cons_of_succ_le_length r0 6 h7
    obtain ⟨b2, r2, rfl, h5⟩ := exists_cons_of_succ_le_length r1 5 h6
    obtain ⟨b3, r3, rfl, h4⟩ := exists_cons_of_succ_le_length r2 4 h5
    obtain ⟨b4, r4, rfl, h3⟩ := exists_cons_of_succ_le_length r3 3 h4
    obtain ⟨b5, r5, rfl, h2⟩ := exists_cons_of_succ_le_length r4 2 h3
    obtain ⟨b6, r6, rfl, h1⟩ := exists_cons_of_succ_le_length r5 1 h2
    obtain ⟨b7, r7, rfl, -⟩ := exists_cons_of_succ_le_length r6 0 h1
    exact ⟨toSigned 64 (bigEndianValue 8 (b0 :: b1 :: b2 :: b3 :: b4 :: b5 :: b6 :: b7 :: r7)),
      by simp [parseRegisterValue, Uint64_eq_bigEndianValue],
      toSigned_isTwosComplement 64 (by decide) _⟩

/-- Witness for C1: the eight decodings of an eight-byte sequence. -/
theorem parseRegisterValue_integer_bigEndian_witness :
    parseRegisterValue [0xFF, 0xFE, 0x03, 0x04, 0x05, 0x06, 0x07, 0x08] "uint8" =
      some (Value.uint8 (bigEndianValue 1 [0xFF, 0xFE, 0x03, 0x04, 0x05, 0x06, 0x07, 0x08])) ∧
    (∃ v, parseRegisterValue [0xFF, 0xFE, 0x03, 0x04, 0x05, 0x06, 0x07, 0x08] "int8" =
        some (Value.int8 v) ∧
      IsTwosComplement 8 (bigEndianValue 1 [0xFF, 0xFE, 0x03, 0x04, 0x05, 0x06, 0x07, 0x08]) v) ∧
    parseRegisterValue [0xFF, 0xFE, 0x03, 0x04, 0x05, 0x06, 0x07, 0x08] "uint16" =
      some (Value.uint16 (bigEndianValue 2 [0xFF, 0xFE, 0x03, 0x04, 0x05, 0x06, 0x07, 0x08])) ∧
    (∃ v, parseRegisterValue [0xFF, 0xFE, 0x03, 0x04, 0x05, 0x06, 0x07, 0x08] "int16" =
        some (Value.int16 v) ∧
      IsTwosComplement 16 (bigEndianValue 2 [0xFF, 0xFE, 0x03, 0x04, 0x05, 0x06, 0x07, 0x08]) v) ∧
    parseRegisterValue [0xFF, 0xFE, 0x03, 0x04, 0x05, 0x06, 0x07, 0x08] "uint32" =
      some (Value.uint32 (bigEndianValue 4 [0xFF, 0xFE, 0x03, 0x04, 0x05, 0x06, 0x07, 0x08])) ∧
    (∃ v, parseRegisterValue [0xFF, 0xFE, 0x03, 0x04, 0x05, 0x06, 0x07, 0x08] "int32" =
        some (Value.int32 v) ∧
      IsTwosComplement 32 (bigEndianValue 4 [0xFF, 0xFE, 0x03, 0x04, 0x05, 0x06, 0x07, 0x08]) v) ∧
    parseRegisterValue [0xFF, 0xFE, 0x03, 0x04, 0x05, 0x06, 0x07, 0x08] "uint64" =
      some (Value.uint64 (bigEndianValue 8 [0xFF, 0xFE, 0x03, 0x04, 0x05, 0x06, 0x07, 0x08])) ∧
    (∃ v, parseRegisterValue [0xFF, 0xFE, 0x03, 0x04, 0x05, 0x06, 0x07, 0x08] "int64" =
        some (Value.int64 v) ∧
      IsTwosComplement 64 (bigEndianValue 8 [0xFF, 0xFE, 0x03, 0x04, 0x05, 0x06, 0x07, 0x08]) v) :=
  ⟨(parseRegisterValue_integer_bigEndian _).1 (by decide),
   (parseRegisterValue_integer_bigEndian _).2.1 (by decide),
   (parseRegisterValue_integer_bigEndian _).2.2.1 (by decide),
   (parseRegisterValue_integer_bigEndian _).2.2.2.1 (by decide),
   (parseRegisterValue_integer_bigEndian _).2.2.2.2.1 (by decide),
   (parseRegisterValue_integer_bigEndian _).2.2.2.2.2.1 (by decide),
   (parseRegisterValue_integer_bigEndian _).2.2.2.2.2.2.1 (by decide),
   (parseRegisterValue_integer_bigEndian _).2.2.2.2.2.2.2.1 (by decide)⟩

/-! ## Decoder: it never fails, and the raw fallback -/

theorem getElem?_zero_of_length (data : List Byte) (h : data.length ≥ 1) :
    ∃ b, data[0]? = some b := by
  obtain ⟨b0, r0, rfl, -⟩ := exists_cons_of_succ_le_length data 0 h
  exact ⟨b0, by simp⟩

theorem Uint16_of_length (data : List Byte) (h : data.length ≥ 2) :
    binary.BigEndian.Uint16 data = some (bigEndianValue 2 data) := by
  obtain ⟨b0, r0, rfl, h0⟩ := exists_cons_of_succ_le_length data 1 h
  obtain ⟨b1, r1, rfl, -⟩ := exists_cons_of_succ_le_length r0 0 h0
  exact Uint16_eq_bigEndianValue b0 b1 r1

theorem Uint32_of_length (data : List Byte) (h : data.length ≥ 4) :
    binary.BigEndian.Uint32 data = some (bigEndianValue 4 data) := by
  obtain ⟨b0, r0, rfl, h3⟩ := exists_cons_of_succ_le_length data 3 h
  obtain ⟨b1, r1, rfl, h2⟩ := exists_cons_of_succ_le_length r0 2 h3
  obtain ⟨b2, r2, rfl, h1⟩ := exists_cons_of_succ_le_length r1 1 h2
  obtain ⟨b3, r3, rfl, -⟩ := exists_cons_of_succ_le_length r2 0 h1
  exact Uint32_eq_bigEndianValue b0 b1 b2 b3 r3

theorem Uint64_of_length (data : List Byte) (h : data.length ≥ 8) :
    binary.BigEndian.Uint64 data = some (bigEndianValue 8 data) := by
  obtain ⟨b0, r0, rfl, h7⟩ := exists_cons_of_succ_le_length data 7 h
  obtain ⟨b1, r1, rfl, h6⟩ := exists_cons_of_succ_le_length r0 6 h7
  obtain ⟨b2, r2, rfl, h5⟩ := exists_cons_of_succ_le_length r1 5 h6
  obtain ⟨b3, r3, rfl, h4⟩ := exists_cons_of_succ_le_length r2 4 h5
  obtain ⟨b4, r4, rfl, h3⟩ := exists_cons_of_succ_le_length r3 3 h4
  obtain ⟨b5, r5, rfl, h2⟩ := exists_cons_of_succ_le_length r4 2 h3
  obtain ⟨b6, r6, rfl, h1⟩ := exists_cons_of_succ_le_length r5 1 h2
  obtain ⟨b7, r7, rfl, -⟩ := exists_cons_of_succ_le_length r6 0 h1
  exact Uint64_eq_bigEndianValue b0 b1 b2 b3 b4 b5 b6 b7 r7

theorem float32_nonFinite_iff (x : Nat) :
    (((x >>> 23) &&& 0xFF != 0xFF) = false) ↔ x / 2 ^ 23 % 2 ^ 8 = 2 ^ 8 - 1 := by
  have e : (0xFF : Nat) = 2 ^ 8 - 1 := by norm_num
  rw [e, Nat.and_pow_two_sub_one_eq_mod, Nat.shiftRight_eq_div_pow]
  simp [bne]

theorem float64_nonFinite_iff (x : Nat) :
    (((x >>> 52) &&& 0x7FF != 0x7FF) = false) ↔ x / 2 ^ 52 % 2 ^ 11 = 2 ^ 11 - 1 := by
  have e : (0x7FF : Nat) = 2 ^ 11 - 1 := by norm_num
  rw [e, Nat.and_pow_two_sub_one_eq_mod, Nat.shiftRight_eq_div_pow]
  simp [bne]

/-- The decoder returns a value, and `json.Marshal` rejects that value exactly
when it is a non-finite float. -/
theorem parseRegisterValue_jsonSupported (data : List Byte) (tag : String) :
    ∃ v, parseRegisterValue data tag = some v ∧
      (jsonSupported v = false ↔ decodesToNonFiniteFloat data tag) := by
  unfold parseRegisterValue
  by_cases t_hex : tag = "hex"
  · rw [if_pos t_hex]
    subst t_hex
    exact ⟨_, rfl, by simp [jsonSupported, decodesToNonFiniteFloat]⟩
  rw [if_neg t_hex]
  by_cases t_bcd : tag = "bcd"
  · rw [if_pos t_bcd]
    subst t_bcd
    exact ⟨_, rfl, by simp [jsonSupported, decodesToNonFiniteFloat]⟩
  rw [if_neg t_bcd]
  by_cases t_uint8 : tag = "uint8"
  · rw [if_pos t_uint8]
    subst t_uint8
    by_cases g : data.length ≥ 1
    · obtain ⟨x, hx⟩ := getElem?_zero_of_length data g
      rw [if_pos g, hx]
      exact ⟨_, rfl, by simp [jsonSupported, decodesToNonFiniteFloat]⟩
    · rw [if_neg g]
      refine ⟨_, rfl, ?_⟩
      simp [jsonSupported, decodesToNonFiniteFloat]
  rw [if_neg t_uint8]
  by_cases t_int8 : tag = "int8"
  · rw [if_pos t_int8]
    subst t_int8
    by_cases g : data.length ≥ 1
    · obtain ⟨x, hx⟩ := getElem?_zero_of_length data g
      rw [if_pos g, hx]
      exact ⟨_, rfl, by simp [jsonSupported, decodesToNonFiniteFloat]⟩
    · rw [if_neg g]
      refine ⟨_, rfl, ?_⟩
      simp [jsonSupported, decodesToNonFiniteFloat]
  rw [if_neg t_int8]
  by_cases t_uint16 : tag = "uint16"
  · rw [if_pos t_uint16]
    subst t_uint16
    by_cases g : data.length ≥ 2
    · rw [if_pos g, Uint16_of_length data g]
      exact ⟨_, rfl, by simp [jsonSupported, decodesToNonFiniteFloat]⟩
    · rw [if_neg g]
      refine ⟨_, rfl, ?_⟩
      simp [jsonSupported, decodesToNonFiniteFloat]
  rw [if_neg t_uint16]
  by_cases t_int16 : tag = "int16"
  · rw [if_pos t_int16]
    subst t_int16
    by_cases g : data.length ≥ 2
    · rw [if_pos g, Uint16_of_length data g]
      exact ⟨_, rfl, by simp [jsonSupported, decodesToNonFiniteFloat]⟩
    · rw [if_neg g]
      refine ⟨_, rfl, ?_⟩
      simp [jsonSupported, decodesToNonFiniteFloat]
  rw [if_neg t_int16]
  by_cases t_uint32 : tag = "uint32"
  · rw [if_pos t_uint32]
    subst t_uint32
    by_cases g : data.length ≥ 4
    · rw [if_pos g, Uint32_of_length data g]
      exact ⟨_, rfl, by simp [jsonSupported, decodesToNonFiniteFloat]⟩
    · rw [if_neg g]
      refine ⟨_, rfl, ?_⟩
      simp [jsonSupported, decodesToNonFiniteFloat]
  rw [if_neg t_uint32]
  by_cases t_int32 : tag = "int32"
  · rw [if_pos t_int32]
    subst t_int32
    by_cases g : data.length ≥ 4
    · rw [if_pos g, Uint32_of_length data g]
      exact ⟨_, rfl, by simp [jsonSupported, decodesToNonFiniteFloat]⟩
    · rw [if_neg g]
      refine ⟨_, rfl, ?_⟩
      simp [jsonSupported, decodesToNonFiniteFloat]
  rw [if_neg t_int32]
  by_cases t_uint64 : tag = "uint64"
  · rw [if_pos t_uint64]
    subst t_uint64
    by_cases g : data.length ≥ 8
    · rw [if_pos g, Uint64_of_length data g]
      exact ⟨_, rfl, by simp [jsonSupported, decodesToNonFiniteFloat]⟩
    · rw [if_neg g]
      refine ⟨_, rfl, ?_⟩
      simp [jsonSupported, decodesToNonFiniteFloat]
  rw [if_neg t_uint64]
  by_cases t_int64 : tag = "int64"
  · rw [if_pos t_int64]
    subst t_int64
    by_cases g : data.length ≥ 8
    · rw [if_pos g, Uint64_of_length data g]
      exact ⟨_, rfl, by simp [jsonSupported, decodesToNonFiniteFloat]⟩
    · rw [if_neg g]
      refine ⟨_, rfl, ?_⟩
      simp [jsonSupported, decodesToNonFiniteFloat]
  rw [if_neg t_int64]
  by_cases t_float32 : tag = "float32"
  · rw [if_pos t_float32]
    subst t_float32
    by_cases g : data.length ≥ 4
    · rw [if_pos g, Uint32_of_length data g]
      refine ⟨_, rfl, ?_⟩
      simp only [jsonSupported, float32_nonFinite_iff, decodesToNonFiniteFloat]
      simp
      omega
    · rw [if_neg g]
      refine ⟨_, rfl, ?_⟩
      simp [jsonSupported, decodesToNonFiniteFloat]
      omega
  rw [if_neg t_float32]
  by_cases t_float64 : tag = "float64"
  · rw [if_pos t_float64]
    subst t_float64
    by_cases g : data.length ≥ 8
    · rw [if_pos g, Uint64_of_length data g]
      refine ⟨_, rfl, ?_⟩
      simp only [jsonSupported, float64_nonFinite_iff, decodesToNonFiniteFloat]
      simp
      omega
    · rw [if_neg g]
      refine ⟨_, rfl, ?_⟩
      simp [jsonSupported, decodesToNonFiniteFloat]
      omega
  rw [if_neg t_float64]
  by_cases t_bool : tag = "bool"
  · rw [if_pos t_bool]
    subst t_bool
    by_cases g : data.length ≥ 1
    · obtain ⟨x, hx⟩ := getElem?_zero_of_length data g
      rw [if_pos g, hx]
      exact ⟨_, rfl, by simp [jsonSupported, decodesToNonFiniteFloat]⟩
    · rw [if_neg g]
      refine ⟨_, rfl, ?_⟩
      simp [jsonSupported, decodesToNonFiniteFloat]
  rw [if_neg t_bool]
  by_cases t_string : tag = "string"
  · rw [if_pos t_string]
    subst t_string
    exact ⟨_, rfl, by simp [jsonSupported, decodesToNonFiniteFloat]⟩
  rw [if_neg t_string]
  exact ⟨_, rfl, by simp [jsonSupported, decodesToNonFiniteFloat, t_float32, t_float64]⟩

theorem parseRegisterValue_total (data : List Byte) (tag : String) :
    ∃ v, parseRegisterValue data tag = some v := by
  obtain ⟨v, hv, -⟩ := parseRegisterValue_jsonSupported data tag
  exact ⟨v, hv⟩

theorem parseRegisterValue_unrecognised (data : List Byte) (tag : String)
    (h : tag ∉ recognisedTags) : parseRegisterValue data tag = some (Value.bytes data) := by
  simp only [recognisedTags, List.mem_cons, List.mem_singleton, List.not_mem_nil, or_false,
    not_or] at h
  obtain ⟨h1, h2, h3, h4, h5, h6, h7, h8, h9, h10, h11, h12, h13, h14⟩ := h
  simp [parseRegisterValue, h1, h2, h3, h4, h5, h6, h7, h8, h9, h10, h11, h12, h13, h14]

theorem parseRegisterValue_short (data : List Byte) (tag : String) (w : Nat)
    (hw : requiredWidth tag = some w) (hlen : data.length < w) :
    parseRegisterValue data tag = some (Value.bytes data) := by
  unfold requiredWidth at hw
  split_ifs at hw with c1 c2 c3 c4
  · simp only [Option.some.injEq] at hw
    subst hw
    have h0 : ¬ data.length ≥ 1 := by omega
    rcases c1 with rfl | rfl | rfl <;> simp [parseRegisterValue, h0]
  · simp only [Option.some.injEq] at hw
    subst hw
    have h0 : ¬ data.length ≥ 2 := by omega
    rcases c2 with rfl | rfl <;> simp [parseRegisterValue, h0]
  · simp only [Option.some.injEq] at hw
    subst hw
    have h0 : ¬ data.length ≥ 4 := by omega
    rcases c3 with rfl | rfl | rfl <;> simp [parseRegisterValue, h0]
  · simp only [Option.some.injEq] at hw
    subst hw
    have h0 : ¬ data.length ≥ 8 := by omega
    rcases c4 with rfl | rfl | rfl <;> simp [parseRegisterValue, h0]

/-- C3: `parseRegisterValue` never fails: for every byte sequence (the empty
one included) and every tag it returns a value; and when the tag is not a
recognised one, or is a fixed-width one and the data is shorter than its
width, the value returned is the input byte sequence itself (one byte
supplied for `uint32` comes back as that one byte). -/
theorem parseRegisterValue_never_fails (data : List Byte) (tag : String) :
    (∃ v, parseRegisterValue data tag = some v) ∧
    ((tag ∉ recognisedTags ∨ ∃ w, requiredWidth tag = some w ∧ data.length < w) →
      parseRegisterValue data tag = some (Value.bytes data)) ∧
    parseRegisterValue [0x07] "uint32" = some (Value.bytes [0x07]) := by
  refine ⟨parseRegisterValue_total data tag, ?_, by decide⟩
  rintro (h | ⟨w, hw, hlen⟩)
  · exact parseRegisterValue_unrecognised data tag h
  · exact parseRegisterValue_short data tag w hw hlen

/-- Witness for C3: three bytes for `float64`, and an empty sequence under an
unknown tag, come back unchanged. -/
theorem parseRegisterValue_never_fails_witness :
    parseRegisterValue [0x01, 0x02, 0x03] "float64" = some (Value.bytes [0x01, 0x02, 0x03]) ∧
    parseRegisterValue [] "decimal" = some (Value.bytes []) :=
  ⟨(parseRegisterValue_never_fails [0x01, 0x02, 0x03] "float64").2.1
      (Or.inr ⟨8, by decide, by decide⟩),
   (parseRegisterValue_never_fails [] "decimal").2.1 (Or.inl (by decide))⟩

/-! ## Decoder: hexadecimal rendering -/

theorem foldl_append_eq_flatMap {α β : Type} (g : α → List β) (data : List α) (init : List β) :
    data.foldl (fun buf c => buf ++ g c) init = init ++ data.flatMap g := by
  induction data generalizing init with
  | nil => simp
  | cons c rest ih => simp [List.foldl_cons, ih, List.flatMap_cons, List.append_assoc]

theorem udigits_getD (n : Nat) (h : n < 16) : udigits.getD n '?' = upperHexDigit n := by
  interval_cases n <;> rfl

theorem sprintfX_data (data : List Byte) :
    (sprintfX data).data =
      data.flatMap (fun c => [upperHexDigit (c.val / 16), upperHexDigit (c.val % 16)]) := by
  unfold sprintfX
  rw [foldl_append_eq_flatMap]
  simp only [List.nil_append]
  congr 1
  funext c
  have hc := c.isLt
  have e : (0xF : Nat) = 2 ^ 4 - 1 := by norm_num
  rw [e, Nat.and_pow_two_sub_one_eq_mod, Nat.shiftRight_eq_div_pow,
    udigits_getD _ (by norm_num; omega), udigits_getD _ (by norm_num; omega)]

theorem flatMap_pair_getElem? {α β : Type} (g h : α → β) (data : List α) (i : Nat)
    (hi : i < data.length) :
    (data.flatMap (fun c => [g c, h c]))[2 * i]? = some (g data[i]) ∧
    (data.flatMap (fun c => [g c, h c]))[2 * i + 1]? = some (h data[i]) := by
  induction data generalizing i with
  | nil => simp at hi
  | cons c rest ih =>
    cases i with
    | zero => simp [List.flatMap_cons]
    | succ k =>
      have hk : k < rest.length := by simpa using hi
      have e : 2 * (k + 1) = 2 * k + 1 + 1 := by ring
      obtain ⟨h1, h2⟩ := ih k hk
      simp only [List.flatMap_cons, e, List.cons_append, List.nil_append,
        List.getElem?_cons_succ, List.getElem_cons_succ]
      exact ⟨h1, h2⟩

theorem flatMap_pair_length {α β : Type} (g h : α → β) (data : List α) :
    (data.flatMap (fun c => [g c, h c])).length = 2 * data.length := by
  induction data with
  | nil => rfl
  | cons c rest ih =>
    simp only [List.flatMap_cons, List.length_append, ih, List.length_cons, List.length_nil]
    omega

/-- C4: for every byte sequence, `parseRegisterValue(data, "hex")` returns a
string of exactly `2*len(data)` characters whose characters `2i` and `2i+1`
are the high and the low nibble of `data[i]` as hexadecimal digits, `0`-`9`
and uppercase `A`-`F`, with nothing before or between them; the empty
sequence gives the empty string. -/
theorem parseRegisterValue_hex (data : List Byte) :
    (∃ s : String, parseRegisterValue data "hex" = some (Value.string s) ∧
      s.length = 2 * data.length ∧
      ∀ i (h : i < data.length),
        s.data[2 * i]? = some (upperHexDigit (data[i].val / 16)) ∧
        s.data[2 * i + 1]? = some (upperHexDigit (data[i].val % 16))) ∧
    (List.range 16).map upperHexDigit =
      ['0', '1', '2', '3', '4', '5', '6', '7', '8', '9', 'A', 'B', 'C', 'D', 'E', 'F'] ∧
    parseRegisterValue [] "hex" = some (Value.string "") := by
  refine ⟨⟨sprintfX data, by simp [parseRegisterValue], ?_, ?_⟩, by rfl, by decide⟩
  · show (sprintfX data).data.length = _
    rw [sprintfX_data, flatMap_pair_length]
  · intro i h
    rw [sprintfX_data]
    exact flatMap_pair_getElem? _ _ data i h

/-- Witness for C4: the second byte of `[0x1A, 0xF4]` is rendered at
characters 2 and 3. -/
theorem parseRegisterValue_hex_witness :
    ∃ s : String, parseRegisterValue [0x1A, 0xF4] "hex" = some (Value.string s) ∧
      s.length = 2 * 2 ∧
      s.data[2 * 1]? = some (upperHexDigit (0xF4 / 16)) ∧
      s.data[2 * 1 + 1]? = some (upperHexDigit (0xF4 % 16)) :=
  match (parseRegisterValue_hex [0x1A, 0xF4]).1 with
  | ⟨s, hs, hlen, hdig⟩ => ⟨s, hs, hlen, hdig 1 (by decide)⟩

/-! ## Decoder: BCD -/

theorem hi_nibble_eq (d : Byte) : (d.val >>> 4) &&& 0x0F = d.val / 16 := by
  have h := d.isLt
  have e : (0x0F : Nat) = 2 ^ 4 - 1 := by norm_num
  rw [e, Nat.and_pow_two_sub_one_eq_mod, Nat.shiftRight_eq_div_pow]
  norm_num
  omega

theorem lo_nibble_eq (d : Byte) : d.val &&& 0x0F = d.val % 16 := by
  have e : (0x0F : Nat) = 2 ^ 4 - 1 := by norm_num
  rw [e, Nat.and_pow_two_sub_one_eq_mod]

theorem bcd_foldl_mod (data : List Byte) (a : Nat) :
    data.foldl (fun val d =>
      let hi := (d.val >>> 4) &&& 0x0F
      let lo := d.val &&& 0x0F
      (val * 100 + hi * 10 + lo) % 2 ^ 64) (a % 2 ^ 64) =
    (data.foldl (fun value d => value * 100 + (d.val / 16) * 10 + d.val % 16) a) % 2 ^ 64 := by
  induction data generalizing a with
  | nil => rfl
  | cons d rest ih =>
    simp only [List.foldl_cons]
    rw [← ih]
    congr 1
    rw [hi_nibble_eq, lo_nibble_eq]
    norm_num
    omega

theorem bcdToUint_eq_mod (data : List Byte) : bcdToUint data = bcdAccumulate data % 2 ^ 64 := by
  have h := bcd_foldl_mod data 0
  simpa [bcdToUint, bcdAccumulate] using h

theorem bcd_foldl_bound (data : List Byte) (a : Nat) :
    data.foldl (fun value d => value * 100 + (d.val / 16) * 10 + d.val % 16) a + 2 ≤
      (a + 2) * 100 ^ data.length := by
  induction data generalizing a with
  | nil => simp
  | cons d rest ih =>
    simp only [List.foldl_cons, List.length_cons]
    refine le_trans (ih _) ?_
    have hd := d.isLt
    have h1 : a * 100 + d.val / 16 * 10 + d.val % 16 + 2 ≤ (a + 2) * 100 := by omega
    calc (a * 100 + d.val / 16 * 10 + d.val % 16 + 2) * 100 ^ rest.length
        ≤ ((a + 2) * 100) * 100 ^ rest.length := Nat.mul_le_mul_right _ h1
      _ = (a + 2) * 100 ^ (rest.length + 1) := by ring

theorem bcdAccumulate_lt_of_length_le (data : List Byte) (h : data.length ≤ 9) :
    bcdAccumulate data < 2 ^ 64 := by
  have hb := bcd_foldl_bound data 0
  have hp : 100 ^ data.length ≤ 100 ^ 9 := Nat.pow_le_pow_right (by norm_num) h
  have : bcdAccumulate data + 2 ≤ 2 * 100 ^ 9 := by
    unfold bcdAccumulate
    calc _ ≤ (0 + 2) * 100 ^ data.length := hb
      _ ≤ 2 * 100 ^ 9 := by simpa using Nat.mul_le_mul_left 2 hp
  norm_num at this ⊢
  omega

theorem bcdToUint_eq_of_length_le (data : List Byte) (h : data.length ≤ 9) :
    bcdToUint data = bcdAccumulate data := by
  rw [bcdToUint_eq_mod, Nat.mod_eq_of_lt (bcdAccumulate_lt_of_length_le data h)]

theorem parseRegisterValue_bcd (data : List Byte) :
    parseRegisterValue data "bcd" = some (Value.uint64 (bcdToUint data)) := by
  simp [parseRegisterValue]

theorem bcdAccumulate_append (data : List Byte) (d : Byte) :
    bcdAccumulate (data ++ [d]) = bcdAccumulate data * 100 + (d.val / 16) * 10 + d.val % 16 := by
  simp [bcdAccumulate, List.foldl_append]

theorem nibbles_append (data : List Byte) (d : Byte) :
    nibbles (data ++ [d]) = nibbles data ++ [d.val / 16, d.val % 16] := by
  simp [nibbles, List.flatMap_append]

theorem nibbles_length (data : List Byte) : (nibbles data).length = 2 * data.length := by
  induction data with
  | nil => rfl
  | cons d rest ih =>
    have : nibbles (d :: rest) = [d.val / 16, d.val % 16] ++ nibbles rest := by
      simp [nibbles, List.flatMap_cons]
    rw [this, List.length_append, ih]
    simp
    omega

theorem bcdAccumulate_digits (data : List Byte)
    (hvalid : ∀ d ∈ data, d.val / 16 ≤ 9 ∧ d.val % 16 ≤ 9) :
    bcdAccumulate data < 10 ^ (2 * data.length) ∧
    ∀ i, i < 2 * data.length →
      bcdAccumulate data / 10 ^ (2 * data.length - 1 - i) % 10 = (nibbles data).getD i 0 := by
  induction data using List.reverseRecOn with
  | nil => simp [bcdAccumulate]
  | append_singleton data d ih =>
    have hv : ∀ x ∈ data, x.val / 16 ≤ 9 ∧ x.val % 16 ≤ 9 := fun x hx =>
      hvalid x (List.mem_append_left _ hx)
    have hd := hvalid d (by simp)
    obtain ⟨hlt, hdig⟩ := ih hv
    have hlen : (data ++ [d]).length = data.length + 1 := by simp
    have hpow : 10 ^ (2 * (data.length + 1)) = 10 ^ (2 * data.length) * 100 := by
      rw [Nat.mul_add, pow_add]
      norm_num
    rw [bcdAccumulate_append, nibbles_append, hlen]
    set acc := bcdAccumulate data with hacc
    set r := d.val / 16 * 10 + d.val % 16 with hr
    have hr99 : r ≤ 99 := by omega
    have hsum : acc * 100 + d.val / 16 * 10 + d.val % 16 = acc * 100 + r := by omega
    rw [hsum]
    constructor
    · rw [hpow]
      have : (acc + 1) * 100 ≤ 10 ^ (2 * data.length) * 100 := Nat.mul_le_mul_right _ hlt
      omega
    · intro i hi
      by_cases hlow : i < 2 * data.length
      · rw [List.getD_append _ _ _ _ (by rw [nibbles_length]; exact hlow), ← hdig i hlow]
        have he : 2 * (data.length + 1) - 1 - i = (2 * data.length - 1 - i) + 2 := by omega
        rw [he, pow_add, Nat.mul_comm (10 ^ (2 * data.length - 1 - i)), ← Nat.div_div_eq_div_mul]
        congr 2
        norm_num
        omega
      · rw [List.getD_append_right _ _ _ _ (by rw [nibbles_length]; omega), nibbles_length]
        have hcases : i = 2 * data.length ∨ i = 2 * data.length + 1 := by omega
        rcases hcases with h | h
        · have he : 2 * (data.length + 1) - 1 - i = 1 := by omega
          have hi0 : i - 2 * data.length = 0 := by omega
          rw [he, hi0]
          simp
          omega
        · have he : 2 * (data.length + 1) - 1 - i = 0 := by omega
          have hi0 : i - 2 * data.length = 1 := by omega
          rw [he, hi0]
          simp
          omega

/-- C2, as stated, fails: on ten bytes `0x99` the exact accumulation is
`10^20 - 1`, which a `uint64` cannot hold; the code returns
`(10^20 - 1) mod 2^64 = 7766279631452241919`. -/
theorem bcd_exact_accumulation_fails :
    bcdAccumulate [0x99, 0x99, 0x99, 0x99, 0x99, 0x99, 0x99, 0x99, 0x99, 0x99] =
      99999999999999999999 ∧
    parseRegisterValue [0x99, 0x99, 0x99, 0x99, 0x99, 0x99, 0x99, 0x99, 0x99, 0x99] "bcd" =
      some (Value.uint64 7766279631452241919) ∧
    parseRegisterValue [0x99, 0x99, 0x99, 0x99, 0x99, 0x99, 0x99, 0x99, 0x99, 0x99] "bcd" ≠
      some (Value.uint64
        (bcdAccumulate [0x99, 0x99, 0x99, 0x99, 0x99, 0x99, 0x99, 0x99, 0x99, 0x99])) := by
  refine ⟨by decide, by decide, by decide⟩

/-- C2, amended: for every byte sequence, `parseRegisterValue(data, "bcd")`
returns the accumulation `value = value*100 + hi*10 + lo` (from 0, byte by
byte, left to right) reduced modulo `2^64`; for a sequence of at most 9 bytes
this is the accumulation itself; `[0x12, 0x34]` decodes to 1234 and the empty
sequence to 0. -/
theorem parseRegisterValue_bcd_accumulation (data : List Byte) :
    parseRegisterValue data "bcd" = some (Value.uint64 (bcdAccumulate data % 2 ^ 64)) ∧
    (data.length ≤ 9 →
      parseRegisterValue data "bcd" = some (Value.uint64 (bcdAccumulate data))) ∧
    parseRegisterValue [0x12, 0x34] "bcd" = some (Value.uint64 1234) ∧
    parseRegisterValue [] "bcd" = some (Value.uint64 0) := by
  refine ⟨?_, ?_, by decide, by decide⟩
  · rw [parseRegisterValue_bcd, bcdToUint_eq_mod]
  · intro h
    rw [parseRegisterValue_bcd, bcdToUint_eq_of_length_le data h]

/-- Witness for C2 (amended): nine bytes `0x99` decode to `10^18 - 1`. -/
theorem parseRegisterValue_bcd_accumulation_witness :
    parseRegisterValue [0x99, 0x99, 0x99, 0x99, 0x99, 0x99, 0x99, 0x99, 0x99] "bcd" =
      some (Value.uint64 999999999999999999) :=
  (parseRegisterValue_bcd_accumulation
    [0x99, 0x99, 0x99, 0x99, 0x99, 0x99, 0x99, 0x99, 0x99]).2.1 (by decide)

/-- C10: the BCD accumulator is a `uint64`, so the result is the exact
accumulation modulo `2^64`. For at most 9 bytes, whatever the nibbles, nothing
wraps and the result is the exact accumulation; if moreover every nibble is at
most 9, the result is below `10^(2*len)` and its decimal digit at position `i`
from the left (of `2*len` digits) is nibble `i`. For some 10-byte sequence of
decimal nibbles the result differs from the exact accumulation. -/
theorem bcd_uint64_accumulator :
    (∀ data : List Byte,
      parseRegisterValue data "bcd" = some (Value.uint64 (bcdAccumulate data % 2 ^ 64))) ∧
    (∀ data : List Byte, data.length ≤ 9 →
      bcdAccumulate data < 2 ^ 64 ∧
      parseRegisterValue data "bcd" = some (Value.uint64 (bcdAccumulate data))) ∧
    (∀ data : List Byte, data.length ≤ 9 → (∀ d ∈ data, d.val / 16 ≤ 9 ∧ d.val % 16 ≤ 9) →
      ∃ r, parseRegisterValue data "bcd" = some (Value.uint64 r) ∧
        r < 10 ^ (2 * data.length) ∧
        ∀ i, i < 2 * data.length →
          r / 10 ^ (2 * data.length - 1 - i) % 10 = (nibbles data).getD i 0) ∧
    (∃ data : List Byte, data.length = 10 ∧ (∀ d ∈ data, d.val / 16 ≤ 9 ∧ d.val % 16 ≤ 9) ∧
      parseRegisterValue data "bcd" ≠ some (Value.uint64 (bcdAccumulate data))) := by
  refine ⟨?_, ?_, ?_, ?_⟩
  · intro data
    rw [parseRegisterValue_bcd, bcdToUint_eq_mod]
  · intro data h
    refine ⟨bcdAccumulate_lt_of_length_le data h, ?_⟩
    rw [parseRegisterValue_bcd, bcdToUint_eq_of_length_le data h]
  · intro data h hvalid
    obtain ⟨hlt, hdig⟩ := bcdAccumulate_digits data hvalid
    refine ⟨bcdAccumulate data, ?_, hlt, hdig⟩
    rw [parseRegisterValue_bcd, bcdToUint_eq_of_length_le data h]
  · refine ⟨[0x18, 0x44, 0x67, 0x44, 0x07, 0x37, 0x09, 0x55, 0x16, 0x16], by decide, ?_,
      by decide⟩
    simp only [List.forall_mem_cons, List.not_mem_nil, false_imp_iff, implies_true, and_true]
    decide

/-- Witness for C10: the three bytes `[0x09, 0x87, 0x65]` have decimal nibbles
and decode to 98765, whose six padded digits are `0, 9, 8, 7, 6, 5`. -/
theorem bcd_uint64_accumulator_witness :
    ∃ r, parseRegisterValue [0x09, 0x87, 0x65] "bcd" = some (Value.uint64 r) ∧
      r < 10 ^ (2 * 3) ∧
      ∀ i, i < 2 * 3 → r / 10 ^ (2 * 3 - 1 - i) % 10 = (nibbles [0x09, 0x87, 0x65]).getD i 0 :=
  bcd_uint64_accumulator.2.2.1 [0x09, 0x87, 0x65] (by decide)
    (by simp only [List.forall_mem_cons, List.not_mem_nil, false_imp_iff, implies_true, and_true]
        decide)

/-! ## The sensor poller -/

theorem pollSensor_connect_error (sensor : Sensor) (timeout : Nat) (w : PollOutcome)
    (h : w.connectErr = true) :
    pollSensor sensor timeout w =
      some [Event.connect (sensor.IP ++ ":502") sensor.SlaveID timeout,
        Event.logConnectError sensor.RegisterName,
        Event.send [("register", Value.string sensor.RegisterName),
          ("value", Value.string "abc"), ("ts", Value.time w.now)]] := by
  simp [pollSensor, h, Marshal, jsonSupported]

theorem pollSensor_read_error (sensor : Sensor) (timeout : Nat) (w : PollOutcome)
    (hc : w.connectErr = false) (hr : w.readResult = none) :
    pollSensor sensor timeout w =
      some [Event.connect (sensor.IP ++ ":502") sensor.SlaveID timeout,
        Event.readHoldingRegisters sensor.ModbusAddress sensor.Size, Event.close,
        Event.logReadError sensor.RegisterName] := by
  simp [pollSensor, hc, hr]

theorem Marshal_reading (name : String) (value : Value) (now : Time) :
    Marshal [("register", Value.string name), ("value", value),
        ("starttimestamp", Value.time now)] =
      if jsonSupported value then
        some [("register", Value.string name), ("value", value),
          ("starttimestamp", Value.time now)]
      else none := by
  have h1 : jsonSupported (Value.string name) = true := rfl
  have h3 : jsonSupported (Value.time now) = true := rfl
  simp only [Marshal, List.all_cons, List.all_nil, h1, h3, Bool.and_true, Bool.true_and]

theorem pollSensor_read_ok (sensor : Sensor) (timeout : Nat) (w : PollOutcome)
    (results : List Byte) (value : Value)
    (hc : w.connectErr = false) (hr : w.readResult = some results)
    (hv : parseRegisterValue results sensor.DataType = some value)
    (hj : jsonSupported value = true) :
    pollSensor sensor timeout w =
      some [Event.connect (sensor.IP ++ ":502") sensor.SlaveID timeout,
        Event.readHoldingRegisters sensor.ModbusAddress sensor.Size, Event.close,
        Event.send [("register", Value.string sensor.RegisterName),
          ("value", value), ("starttimestamp", Value.time w.now)]] := by
  simp [pollSensor, hc, hr, hv, Marshal_reading, hj]

theorem pollSensor_marshal_error (sensor : Sensor) (timeout : Nat) (w : PollOutcome)
    (results : List Byte) (value : Value)
    (hc : w.connectErr = false) (hr : w.readResult = some results)
    (hv : parseRegisterValue results sensor.DataType = some value)
    (hj : jsonSupported value = false) :
    pollSensor sensor timeout w =
      some [Event.connect (sensor.IP ++ ":502") sensor.SlaveID timeout,
        Event.readHoldingRegisters sensor.ModbusAddress sensor.Size, Event.close,
        Event.logMarshalError sensor.RegisterName] := by
  simp [pollSensor, hc, hr, hv, Marshal_reading, hj]

/-- A poll step never raises a run-time error, and it puts on the channel
either nothing or one envelope carrying the sensor's register name. -/
theorem pollSensor_output (sensor : Sensor) (timeout : Nat) (w : PollOutcome) :
    ∃ evs, pollSensor sensor timeout w = some evs ∧
      (sends evs = [] ∨
        ∃ payload, sends evs = [payload] ∧ payload.register = some sensor.RegisterName) := by
  cases hc : w.connectErr with
  | true =>
    exact ⟨_, pollSensor_connect_error sensor timeout w hc,
      Or.inr ⟨_, rfl, by simp [Payload.register, List.lookup]⟩⟩
  | false =>
    cases hr : w.readResult with
    | none => exact ⟨_, pollSensor_read_error sensor timeout w hc hr, Or.inl rfl⟩
    | some results =>
      obtain ⟨value, hv, -⟩ := parseRegisterValue_jsonSupported results sensor.DataType
      cases hj : jsonSupported value with
      | true =>
        exact ⟨_, pollSensor_read_ok sensor timeout w results value hc hr hv hj,
          Or.inr ⟨_, rfl, by simp [Payload.register, List.lookup]⟩⟩
      | false =>
        exact ⟨_, pollSensor_marshal_error sensor timeout w results value hc hr hv hj, Or.inl rfl⟩

/-- C5: in one poll step for a sensor whose connection attempt fails, no
holding-register read is issued and exactly one envelope is put on the output
channel: a JSON object with exactly the keys `register` (the sensor's register
name), `value` (the sentinel string `abc`) and `ts` (the timestamp), and
without a `starttimestamp` key. -/
theorem pollSensor_connect_failure_envelope (sensor : Sensor) (timeout : Nat) (w : PollOutcome)
    (h : w.connectErr = true) :
    ∃ evs payload, pollSensor sensor timeout w = some evs ∧
      reads evs = [] ∧
      sends evs = [payload] ∧
      payload.keys = ["register", "value", "ts"] ∧
      payload.lookup "register" = some (Value.string sensor.RegisterName) ∧
      payload.lookup "value" = some (Value.string "abc") ∧
      payload.lookup "ts" = some (Value.time w.now) ∧
      payload.lookup "starttimestamp" = none := by
  refine ⟨_, _, pollSensor_connect_error sensor timeout w h, rfl, rfl, rfl, ?_, ?_, ?_, ?_⟩ <;>
    simp [List.lookup]

/-- Witness for C5: a sensor `temperature` whose connection fails at instant 7. -/
theorem pollSensor_connect_failure_envelope_witness :
    ∃ evs payload,
      pollSensor ⟨"temperature", 1, 100, "uint16", 1, "10.0.0.5"⟩ 2 ⟨true, none, 7⟩ = some evs ∧
      reads evs = [] ∧
      sends evs = [payload] ∧
      payload.keys = ["register", "value", "ts"] ∧
      payload.lookup "register" = some (Value.string "temperature") ∧
      payload.lookup "value" = some (Value.string "abc") ∧
      payload.lookup "ts" = some (Value.time 7) ∧
      payload.lookup "starttimestamp" = none :=
  pollSensor_connect_failure_envelope ⟨"temperature", 1, 100, "uint16", 1, "10.0.0.5"⟩ 2
    ⟨true, none, 7⟩ rfl

/-- C6, as stated, fails: a `float32` sensor whose read succeeds with the
bytes `7F C0 00 00` (a NaN) decodes to a value that `json.Marshal` rejects;
the error is logged and no envelope is put on the output channel. -/
theorem pollSensor_read_success_nan_no_envelope :
    parseRegisterValue [0x7F, 0xC0, 0x00, 0x00] "float32" = some (Value.float32 0x7FC00000) ∧
    pollSensor ⟨"temperature", 1, 100, "float32", 2, "10.0.0.5"⟩ 2
        ⟨false, some [0x7F, 0xC0, 0x00, 0x00], 7⟩ =
      some [Event.connect "10.0.0.5:502" 1 2, Event.readHoldingRegisters 100 2, Event.close,
        Event.logMarshalError "temperature"] ∧
    sensorOutput ⟨"temperature", 1, 100, "float32", 2, "10.0.0.5"⟩ 2
        ⟨false, some [0x7F, 0xC0, 0x00, 0x00], 7⟩ = [] := by
  refine ⟨by decide, by decide, by decide⟩

/-- C6, amended: in one poll step for a sensor whose connection and read both
succeed, for every returned byte sequence and every declared data type:
if the bytes decode to a non-finite `float32`/`float64` (NaN or infinity),
`json.Marshal` fails, the error is logged and no envelope is put on the
output channel; otherwise exactly one envelope is put, a JSON object with
exactly the keys `register` (the sensor's register name), `value` (the result
of `parseRegisterValue` on the returned bytes and the sensor's data type) and
`starttimestamp`, and without a `ts` key. -/
theorem pollSensor_read_success_envelope (sensor : Sensor) (timeout : Nat) (w : PollOutcome)
    (results : List Byte) (hc : w.connectErr = false) (hr : w.readResult = some results) :
    (decodesToNonFiniteFloat results sensor.DataType →
      pollSensor sensor timeout w =
        some [Event.connect (sensor.IP ++ ":502") sensor.SlaveID timeout,
          Event.readHoldingRegisters sensor.ModbusAddress sensor.Size, Event.close,
          Event.logMarshalError sensor.RegisterName] ∧
      sensorOutput sensor timeout w = []) ∧
    (¬ decodesToNonFiniteFloat results sensor.DataType →
      ∃ value payload, parseRegisterValue results sensor.DataType = some value ∧
        pollSensor sensor timeout w =
          some [Event.connect (sensor.IP ++ ":502") sensor.SlaveID timeout,
            Event.readHoldingRegisters sensor.ModbusAddress sensor.Size, Event.close,
            Event.send payload] ∧
        sensorOutput sensor timeout w = [payload] ∧
        payload.keys = ["register", "value", "starttimestamp"] ∧
        payload.lookup "register" = some (Value.string sensor.RegisterName) ∧
        payload.lookup "value" = some value ∧
        payload.lookup "starttimestamp" = some (Value.time w.now) ∧
        payload.lookup "ts" = none) := by
  obtain ⟨value, hv, hiff⟩ := parseRegisterValue_jsonSupported results sensor.DataType
  constructor
  · intro hnan
    have hj : jsonSupported value = false := hiff.mpr hnan
    have hp := pollSensor_marshal_error sensor timeout w results value hc hr hv hj
    exact ⟨hp, by simp [sensorOutput, hp, sends]⟩
  · intro hfin
    have hj : jsonSupported value = true := by
      cases h : jsonSupported value with
      | true => rfl
      | false => exact absurd (hiff.mp h) hfin
    have hp := pollSensor_read_ok sensor timeout w results value hc hr hv hj
    refine ⟨value, _, hv, hp, by simp [sensorOutput, hp, sends], rfl, ?_, ?_, ?_, ?_⟩ <;>
      simp [List.lookup]

/-- Witness for C6 (amended): a `uint16` sensor reading `01 02` emits one
envelope with value 258, and a `float64` sensor reading an infinity emits none. -/
theorem pollSensor_read_success_envelope_witness :
    (∃ value payload, parseRegisterValue [0x01, 0x02] "uint16" = some value ∧
      pollSensor ⟨"level", 1, 100, "uint16", 1, "10.0.0.5"⟩ 2 ⟨false, some [0x01, 0x02], 7⟩ =
        some [Event.connect ("10.0.0.5" ++ ":502") 1 2, Event.readHoldingRegisters 100 1,
          Event.close, Event.send payload] ∧
      sensorOutput ⟨"level", 1, 100, "uint16", 1, "10.0.0.5"⟩ 2 ⟨false, some [0x01, 0x02], 7⟩ =
        [payload] ∧
      payload.keys = ["register", "value", "starttimestamp"] ∧
      payload.lookup "register" = some (Value.string "level") ∧
      payload.lookup "value" = some value ∧
      payload.lookup "starttimestamp" = some (Value.time 7) ∧
      payload.lookup "ts" = none) ∧
    sensorOutput ⟨"flow", 1, 100, "float64", 4, "10.0.0.5"⟩ 2
      ⟨false, some [0x7F, 0xF0, 0, 0, 0, 0, 0, 0], 7⟩ = [] :=
  ⟨(pollSensor_read_success_envelope ⟨"level", 1, 100, "uint16", 1, "10.0.0.5"⟩ 2
      ⟨false, some [0x01, 0x02], 7⟩ [0x01, 0x02] rfl rfl).2
      (by simp [decodesToNonFiniteFloat]),
   ((pollSensor_read_success_envelope ⟨"flow", 1, 100, "float64", 4, "10.0.0.5"⟩ 2
      ⟨false, some [0x7F, 0xF0, 0, 0, 0, 0, 0, 0], 7⟩ [0x7F, 0xF0, 0, 0, 0, 0, 0, 0] rfl rfl).1
      (Or.inr ⟨rfl, by decide, by decide⟩)).2⟩

/-! ## The polling cycle -/

theorem sends_append (a b : List Event) : sends (a ++ b) = sends a ++ sends b := by
  induction a with
  | nil => rfl
  | cons e rest ih => cases e <;> simp [sends, ih]

theorem pollCycle_cons (timeout : Nat) (sensor : Sensor) (rest : List Sensor)
    (world : Nat → PollOutcome) (evs more : List Event)
    (h1 : pollSensor sensor timeout (world 0) = some evs)
    (h2 : pollCycle timeout rest (fun i => world (i + 1)) = some more) :
    pollCycle timeout (sensor :: rest) world = some (evs ++ more) := by
  simp [pollCycle, h1, h2]

theorem pollCycle_total (timeout : Nat) (sensors : List Sensor) (world : Nat → PollOutcome) :
    ∃ evs, pollCycle timeout sensors world = some evs := by
  induction sensors generalizing world with
  | nil => exact ⟨[], rfl⟩
  | cons sensor rest ih =>
    obtain ⟨evs, h1, -⟩ := pollSensor_output sensor timeout (world 0)
    obtain ⟨more, h2⟩ := ih (fun i => world (i + 1))
    exact ⟨_, pollCycle_cons timeout sensor rest world evs more h1 h2⟩

theorem pollCycle_sends_enumFrom (timeout : Nat) (sensors : List Sensor)
    (world : Nat → PollOutcome) (n : Nat) (evs : List Event)
    (h : pollCycle timeout sensors (fun i => world (n + i)) = some evs) :
    sends evs = (sensors.enumFrom n).flatMap (fun p => sensorOutput p.2 timeout (world p.1)) := by
  induction sensors generalizing n evs with
  | nil =>
    simp only [pollCycle, Option.some.injEq] at h
    subst h
    rfl
  | cons sensor rest ih =>
    obtain ⟨e1, h1, -⟩ := pollSensor_output sensor timeout (world n)
    obtain ⟨more, h2⟩ := pollCycle_total timeout rest (fun i => world (n + 1 + i))
    have hshift : (fun i => world (n + (i + 1))) = (fun i => world (n + 1 + i)) := by
      funext i
      congr 1
      omega
    have hc := pollCycle_cons timeout sensor rest (fun i => world (n + i)) e1 more h1
      (by rw [hshift]; exact h2)
    rw [hc] at h
    simp only [Option.some.injEq] at h
    subst h
    rw [sends_append, ih (n + 1) more h2, List.enumFrom_cons, List.flatMap_cons]
    simp [sensorOutput, h1]

theorem pollCycle_names_sublist (timeout : Nat) (sensors : List Sensor)
    (world : Nat → PollOutcome) (evs : List Event)
    (h : pollCycle timeout sensors world = some evs) :
    ((sends evs).filterMap Payload.register).Sublist (sensors.map Sensor.RegisterName) := by
  induction sensors generalizing world evs with
  | nil =>
    simp only [pollCycle, Option.some.injEq] at h
    subst h
    exact List.Sublist.slnil
  | cons sensor rest ih =>
    obtain ⟨e1, h1, hout⟩ := pollSensor_output sensor timeout (world 0)
    obtain ⟨more, h2⟩ := pollCycle_total timeout rest (fun i => world (i + 1))
    rw [pollCycle_cons timeout sensor rest world e1 more h1 h2] at h
    simp only [Option.some.injEq] at h
    subst h
    have hrest := ih (fun i => world (i + 1)) more h2
    rw [sends_append, List.filterMap_append, List.map_cons]
    rcases hout with h0 | ⟨payload, hp, hreg⟩
    · rw [h0]
      exact List.Sublist.cons _ hrest
    · rw [hp]
      simp only [List.filterMap_cons, hreg, List.filterMap_nil, List.singleton_append]
      exact List.Sublist.cons₂ _ hrest

theorem sensorOutput_length_le (sensor : Sensor) (timeout : Nat) (w : PollOutcome) :
    (sensorOutput sensor timeout w).length ≤ 1 := by
  obtain ⟨evs, h1, hout⟩ := pollSensor_output sensor timeout w
  rcases hout with h0 | ⟨payload, hp, -⟩
  · simp [sensorOutput, h1, h0]
  · simp [sensorOutput, h1, hp]

theorem pollSensor_emits (sensor : Sensor) (timeout : Nat) (w : PollOutcome)
    (h : sensorOutput sensor timeout w ≠ []) :
    ∃ evs payload, pollSensor sensor timeout w = some evs ∧ sends evs = [payload] ∧
      payload.register = some sensor.RegisterName := by
  obtain ⟨evs, h1, hout⟩ := pollSensor_output sensor timeout w
  rcases hout with h0 | ⟨payload, hp, hreg⟩
  · exact absurd (by simp [sensorOutput, h1, h0]) h
  · exact ⟨evs, payload, h1, hp, hreg⟩

/-- C7: in one poll step for a sensor whose connection succeeds and whose
holding-register read fails, the read error is logged, no envelope is put on
the output channel, and the cycle goes on with the next sensor: the events of
the cycle are those of this step followed by those of the remaining sensors. -/
theorem pollCycle_read_failure_no_envelope (timeout : Nat) (sensor : Sensor)
    (rest : List Sensor) (world : Nat → PollOutcome)
    (hc : (world 0).connectErr = false) (hr : (world 0).readResult = none) :
    pollSensor sensor timeout (world 0) =
      some [Event.connect (sensor.IP ++ ":502") sensor.SlaveID timeout,
        Event.readHoldingRegisters sensor.ModbusAddress sensor.Size, Event.close,
        Event.logReadError sensor.RegisterName] ∧
    sensorOutput sensor timeout (world 0) = [] ∧
    ∃ more, pollCycle timeout rest (fun i => world (i + 1)) = some more ∧
      pollCycle timeout (sensor :: rest) world =
        some ([Event.connect (sensor.IP ++ ":502") sensor.SlaveID timeout,
          Event.readHoldingRegisters sensor.ModbusAddress sensor.Size, Event.close,
          Event.logReadError sensor.RegisterName] ++ more) ∧
      sends ([Event.connect (sensor.IP ++ ":502") sensor.SlaveID timeout,
          Event.readHoldingRegisters sensor.ModbusAddress sensor.Size, Event.close,
          Event.logReadError sensor.RegisterName] ++ more) = sends more := by
  have hp := pollSensor_read_error sensor timeout (world 0) hc hr
  obtain ⟨more, h2⟩ := pollCycle_total timeout rest (fun i => world (i + 1))
  refine ⟨hp, by simp [sensorOutput, hp, sends], more, h2,
    pollCycle_cons timeout sensor rest world _ more hp h2, ?_⟩
  rw [sends_append]
  rfl

/-- Witness for C7: the first of two sensors fails to be read, the second is
read; the cycle enqueues the second sensor's envelope only. -/
theorem pollCycle_read_failure_no_envelope_witness :
    sensorOutput ⟨"level", 1, 100, "uint16", 1, "10.0.0.5"⟩ 2 ⟨false, none, 7⟩ = [] ∧
    ∃ more,
      pollCycle 2 [⟨"flow", 1, 102, "bcd", 1, "10.0.0.6"⟩]
        (fun _ => ⟨false, some [0x12, 0x34], 8⟩) = some more ∧
      pollCycle 2 [⟨"level", 1, 100, "uint16", 1, "10.0.0.5"⟩, ⟨"flow", 1, 102, "bcd", 1, "10.0.0.6"⟩]
        (fun i => if i = 0 then ⟨false, none, 7⟩ else ⟨false, some [0x12, 0x34], 8⟩) =
        some ([Event.connect ("10.0.0.5" ++ ":502") 1 2, Event.readHoldingRegisters 100 1,
          Event.close, Event.logReadError "level"] ++ more) :=
  match pollCycle_read_failure_no_envelope 2 ⟨"level", 1, 100, "uint16", 1, "10.0.0.5"⟩
      [⟨"flow", 1, 102, "bcd", 1, "10.0.0.6"⟩]
      (fun i => if i = 0 then ⟨false, none, 7⟩ else ⟨false, some [0x12, 0x34], 8⟩) rfl rfl with
  | ⟨_, hout, more, hmore, hcycle, _⟩ => ⟨hout, more, hmore, hcycle⟩

/-! ## The delivery channel -/

theorem Pipeline.step_conserves (cap : Nat) (m : Move) (st st1 : Pipeline)
    (h : Pipeline.step cap m st = some st1) :
    st1.published ++ st1.buffer ++ st1.pending = st.published ++ st.buffer ++ st.pending ∧
    (st.buffer.length ≤ cap → st1.buffer.length ≤ cap) := by
  obtain ⟨pending, buffer, published⟩ := st
  cases m with
  | send =>
    cases pending with
    | nil => simp [Pipeline.step] at h
    | cons p rest =>
      by_cases hfull : buffer.length < cap
      · simp only [Pipeline.step, hfull, if_true, Option.some.injEq] at h
        subst h
        refine ⟨by simp, fun _ => ?_⟩
        simp only [List.length_append, List.length_singleton]
        omega
      · simp [Pipeline.step, hfull] at h
  | receive =>
    cases buffer with
    | nil => simp [Pipeline.step] at h
    | cons p rest =>
      simp only [Pipeline.step, Option.some.injEq] at h
      subst h
      refine ⟨by simp, fun hb => ?_⟩
      simp only [List.length_cons] at hb
      show rest.length ≤ cap
      omega

theorem Pipeline.run_conserves (cap : Nat) (moves : List Move) (st st1 : Pipeline)
    (h : Pipeline.run cap moves st = some st1) :
    st1.published ++ st1.buffer ++ st1.pending = st.published ++ st.buffer ++ st.pending ∧
    (st.buffer.length ≤ cap → st1.buffer.length ≤ cap) := by
  induction moves generalizing st with
  | nil =>
    simp only [Pipeline.run, Option.some.injEq] at h
    subst h
    exact ⟨rfl, id⟩
  | cons m ms ih =>
    cases hs : Pipeline.step cap m st with
    | none => simp [Pipeline.run, hs] at h
    | some st2 =>
      simp only [Pipeline.run, hs] at h
      obtain ⟨e1, b1⟩ := Pipeline.step_conserves cap m st st2 hs
      obtain ⟨e2, b2⟩ := ih st2 h
      exact ⟨e2.trans e1, fun hb => b2 (b1 hb)⟩

theorem Pipeline.run_append (cap : Nat) (m1 m2 : List Move) (st st1 st2 : Pipeline)
    (h1 : Pipeline.run cap m1 st = some st1) (h2 : Pipeline.run cap m2 st1 = some st2) :
    Pipeline.run cap (m1 ++ m2) st = some st2 := by
  induction m1 generalizing st with
  | nil =>
    simp only [Pipeline.run, Option.some.injEq] at h1
    subst h1
    exact h2
  | cons m ms ih =>
    cases hs : Pipeline.step cap m st with
    | none => simp [Pipeline.run, hs] at h1
    | some st3 =>
      simp only [Pipeline.run, hs] at h1
      simp only [List.cons_append, Pipeline.run, hs]
      exact ih st3 h1

theorem Pipeline.drain_buffer (cap : Nat) (pending buffer published : List Payload) :
    ∃ moves, Pipeline.run cap moves
        { pending := pending, buffer := buffer, published := published } =
      some { pending := pending, buffer := [], published := published ++ buffer } := by
  induction buffer generalizing published with
  | nil => exact ⟨[], by simp [Pipeline.run]⟩
  | cons p rest ih =>
    obtain ⟨moves, hm⟩ := ih (published ++ [p])
    refine ⟨Move.receive :: moves, ?_⟩
    simp only [Pipeline.run, Pipeline.step, hm, List.append_assoc, List.singleton_append]

theorem Pipeline.drain_pending (cap : Nat) (hcap : 0 < cap) (pending published : List Payload) :
    ∃ moves, Pipeline.run cap moves
        { pending := pending, buffer := [], published := published } =
      some { pending := [], buffer := [], published := published ++ pending } := by
  induction pending generalizing published with
  | nil => exact ⟨[], by simp [Pipeline.run]⟩
  | cons p rest ih =>
    obtain ⟨moves, hm⟩ := ih (published ++ [p])
    refine ⟨Move.send :: Move.receive :: moves, ?_⟩
    simp only [Pipeline.run, Pipeline.step, List.length_nil, hcap, if_true, List.nil_append, hm,
      List.append_assoc, List.singleton_append]

theorem Pipeline.drain (cap : Nat) (hcap : 0 < cap) (st : Pipeline) :
    ∃ moves final, Pipeline.run cap moves st = some final ∧ final.pending = [] ∧
      final.buffer = [] ∧ final.published = st.published ++ st.buffer ++ st.pending := by
  obtain ⟨pending, buffer, published⟩ := st
  obtain ⟨m1, h1⟩ := Pipeline.drain_buffer cap pending buffer published
  obtain ⟨m2, h2⟩ := Pipeline.drain_pending cap hcap pending (published ++ buffer)
  exact ⟨m1 ++ m2, _, Pipeline.run_append cap m1 m2 _ _ _ h1 h2, rfl, rfl, rfl⟩

/-- C9: the delivery queue between `ReadSensors` and the publishing consumer
holds at most 100 envelopes. In every state the pipeline can reach, the
buffer has at most 100 entries and what was published, what is buffered and
what is still to be sent make up, in order, exactly what the producer sends
(nothing is dropped); when the buffer holds 100 entries the producer's send
cannot be made (it blocks), the consumer's receive can, and after it the send
can; and from every reachable state some continuation publishes everything. -/
theorem readingsCh_bounded_blocking (toSend : List Payload) (moves : List Move) (st : Pipeline)
    (h : Pipeline.run readingsChCap moves (Pipeline.start toSend) = some st) :
    readingsChCap = 100 ∧
    st.buffer.length ≤ 100 ∧
    st.published ++ st.buffer ++ st.pending = toSend ∧
    (st.buffer.length = 100 →
      Pipeline.step readingsChCap Move.send st = none ∧
      ∃ st1, Pipeline.step readingsChCap Move.receive st = some st1 ∧
        st1.buffer.length = 99 ∧
        (st.pending ≠ [] → ∃ st2, Pipeline.step readingsChCap Move.send st1 = some st2 ∧
          st2.buffer.length = 100)) ∧
    (∃ more final, Pipeline.run readingsChCap more st = some final ∧
      final.pending = [] ∧ final.buffer = [] ∧ final.published = toSend) := by
  obtain ⟨hcons, hbound⟩ := Pipeline.run_conserves readingsChCap moves _ st h
  have hcons1 : st.published ++ st.buffer ++ st.pending = toSend := by
    simpa [Pipeline.start] using hcons
  have hb : st.buffer.length ≤ 100 := hbound (by simp [Pipeline.start])
  refine ⟨rfl, hb, hcons1, ?_, ?_⟩
  · intro hfull
    obtain ⟨pending, buffer, published⟩ := st
    simp only at hfull
    cases buffer with
    | nil => simp at hfull
    | cons p rest =>
      have hrest : rest.length = 99 := by simpa using hfull
      refine ⟨?_, ?_⟩
      · cases pending with
        | nil => rfl
        | cons q qs => simp [Pipeline.step, readingsChCap, hrest]
      · refine ⟨_, rfl, hrest, ?_⟩
        intro hne
        cases pending with
        | nil => exact absurd rfl hne
        | cons q qs =>
          refine ⟨{ pending := qs, buffer := rest ++ [q], published := published ++ [p] }, ?_, ?_⟩
          · simp [Pipeline.step, readingsChCap, hrest]
          · simp [hrest]
  · obtain ⟨more, final, hrun, hp, hbuf, hpub⟩ := Pipeline.drain readingsChCap (by decide) st
    exact ⟨more, final, hrun, hp, hbuf, hpub.trans hcons1⟩

set_option maxRecDepth 100000 in
/-- Witness for C9: after 100 sends of 101 envelopes the buffer is full and
the producer's next send cannot be made. -/
theorem readingsCh_bounded_blocking_witness :
    Pipeline.run readingsChCap (List.replicate 100 Move.send)
        (Pipeline.start (List.replicate 101 [("register", Value.string "level")])) =
      some { pending := [[("register", Value.string "level")]],
             buffer := List.replicate 100 [("register", Value.string "level")],
             published := [] } ∧
    Pipeline.step readingsChCap Move.send
        { pending := [[("register", Value.string "level")]],
          buffer := List.replicate 100 [("register", Value.string "level")],
          published := [] } = none :=
  ⟨by decide,
   ((readingsCh_bounded_blocking (List.replicate 101 [("register", Value.string "level")])
      (List.replicate 100 Move.send)
      { pending := [[("register", Value.string "level")]],
        buffer := List.replicate 100 [("register", Value.string "level")],
        published := [] } (by decide)).2.2.2.1 (by decide)).1⟩

/-! ## Ordering of the envelopes -/

theorem ReadSensors_succ (config : ModbusConfig) (interval timeout : Nat) (stop : Nat → Bool)
    (world : Nat → Nat → PollOutcome) (cycles : Nat) (evs more : List Event)
    (hstop : stop 0 = false)
    (h1 : pollCycle timeout config.Sensors (world 0) = some evs)
    (h2 : ReadSensors config interval timeout (fun k => stop (k + 1)) (fun k => world (k + 1))
      cycles = some more) :
    ReadSensors config interval timeout stop world (cycles + 1) =
      some (evs ++ Event.sleep interval :: more) := by
  simp [ReadSensors, hstop, h1, h2]

theorem pollCycle_pair (timeout : Nat) (s1 s2 : Sensor) (world : Nat → PollOutcome)
    (e1 e2 : List Event)
    (h1 : pollSensor s1 timeout (world 0) = some e1)
    (h2 : pollSensor s2 timeout (world 1) = some e2) :
    pollCycle timeout [s1, s2] world = some (e1 ++ e2) := by
  simp [pollCycle, h1, h2]

/-- C8: for every sensor list and every assignment of connect and read
outcomes, the envelopes that one polling cycle enqueues are the concatenation,
in configuration order, of each sensor's own output (zero or one envelope),
so their register names form a subsequence of the configured order; and over
two cycles of a 2-sensor configuration in which every poll emits, the
consumer draining the FIFO channel receives sensor 1, sensor 2, sensor 1,
sensor 2. -/
theorem pollCycle_envelopes_in_order :
    (∀ (timeout : Nat) (sensors : List Sensor) (world : Nat → PollOutcome),
      ∃ evs, pollCycle timeout sensors world = some evs ∧
        sends evs = sensors.enum.flatMap (fun p => sensorOutput p.2 timeout (world p.1)) ∧
        (∀ p ∈ sensors.enum, (sensorOutput p.2 timeout (world p.1)).length ≤ 1) ∧
        ((sends evs).filterMap Payload.register).Sublist (sensors.map Sensor.RegisterName)) ∧
    (∀ (s1 s2 : Sensor) (pollingInterval configTimeout : Int) (interval timeout : Nat)
        (world : Nat → Nat → PollOutcome),
      (∀ k, k < 2 → sensorOutput s1 timeout (world k 0) ≠ [] ∧
        sensorOutput s2 timeout (world k 1) ≠ []) →
      ∃ evs,
        ReadSensors ⟨pollingInterval, configTimeout, [s1, s2]⟩ interval timeout
          (fun _ => false) world 2 = some evs ∧
        (sends evs).map Payload.register =
          [some s1.RegisterName, some s2.RegisterName, some s1.RegisterName,
            some s2.RegisterName] ∧
        (∃ moves final,
          Pipeline.run readingsChCap moves (Pipeline.start (sends evs)) = some final ∧
          final.pending = [] ∧ final.buffer = []) ∧
        (∀ moves st, Pipeline.run readingsChCap moves (Pipeline.start (sends evs)) = some st →
          (∃ later, st.published ++ later = sends evs) ∧
          (st.pending = [] → st.buffer = [] →
            st.published.map Payload.register =
              [some s1.RegisterName, some s2.RegisterName, some s1.RegisterName,
                some s2.RegisterName]))) := by
  constructor
  · intro timeout sensors world
    obtain ⟨evs, h⟩ := pollCycle_total timeout sensors world
    refine ⟨evs, h, ?_, fun p _ => sensorOutput_length_le p.2 timeout (world p.1),
      pollCycle_names_sublist timeout sensors world evs h⟩
    have h0 : pollCycle timeout sensors (fun i => world (0 + i)) = some evs := by
      simpa using h
    simpa [List.enum] using pollCycle_sends_enumFrom timeout sensors world 0 evs h0
  · intro s1 s2 pollingInterval configTimeout interval timeout world hemit
    obtain ⟨a1, p1, ha1, hs1, hr1⟩ := pollSensor_emits s1 timeout (world 0 0) (hemit 0 (by decide)).1
    obtain ⟨a2, p2, ha2, hs2, hr2⟩ := pollSensor_emits s2 timeout (world 0 1) (hemit 0 (by decide)).2
    obtain ⟨b1, q1, hb1, ht1, hq1⟩ := pollSensor_emits s1 timeout (world 1 0) (hemit 1 (by decide)).1
    obtain ⟨b2, q2, hb2, ht2, hq2⟩ := pollSensor_emits s2 timeout (world 1 1) (hemit 1 (by decide)).2
    have hc1 := pollCycle_pair timeout s1 s2 (world 0) a1 a2 ha1 ha2
    have hc2 := pollCycle_pair timeout s1 s2 (world 1) b1 b2 hb1 hb2
    have hrun : ReadSensors ⟨pollingInterval, configTimeout, [s1, s2]⟩ interval timeout
          (fun _ => false) world 2 =
        some ((a1 ++ a2) ++ Event.sleep interval :: ((b1 ++ b2) ++ Event.sleep interval :: [])) :=
      ReadSensors_succ _ interval timeout _ world 1 _ _ rfl hc1
        (ReadSensors_succ _ interval timeout _ _ 0 _ _ rfl hc2 rfl)
    have hsends : sends ((a1 ++ a2) ++ Event.sleep interval ::
        ((b1 ++ b2) ++ Event.sleep interval :: [])) = [p1, p2, q1, q2] := by
      have e1 : ∀ l, sends (Event.sleep interval :: l) = sends l := fun _ => rfl
      rw [sends_append, sends_append, e1, sends_append, sends_append, e1, hs1, hs2, ht1, ht2]
      rfl
    have hnames : ([p1, p2, q1, q2] : List Payload).map Payload.register =
        [some s1.RegisterName, some s2.RegisterName, some s1.RegisterName,
          some s2.RegisterName] := by
      simp [hr1, hr2, hq1, hq2]
    refine ⟨_, hrun, ?_, ?_, ?_⟩
    · rw [hsends, hnames]
    · obtain ⟨moves, final, hfin, hp, hb, -⟩ :=
        Pipeline.drain readingsChCap (by decide) (Pipeline.start [p1, p2, q1, q2])
      exact ⟨moves, final, by rw [hsends]; exact hfin, hp, hb⟩
    · intro moves st hst
      obtain ⟨hcons, -⟩ := Pipeline.run_conserves readingsChCap moves _ st hst
      have hcons1 : st.published ++ st.buffer ++ st.pending =
          sends ((a1 ++ a2) ++ Event.sleep interval ::
            ((b1 ++ b2) ++ Event.sleep interval :: [])) := by
        simpa [Pipeline.start] using hcons
      refine ⟨⟨st.buffer ++ st.pending, by rw [← List.append_assoc]; exact hcons1⟩, ?_⟩
      intro hp hb
      rw [hp, hb, List.append_nil, List.append_nil, hsends] at hcons1
      rw [hcons1, hnames]

/-- Witness for C8: two sensors, the first unreachable (it emits the sentinel
envelope) and the second read successfully, over two cycles. -/
theorem pollCycle_envelopes_in_order_witness :
    ∃ evs,
      ReadSensors ⟨0, 0, [⟨"level", 1, 100, "uint16", 1, "10.0.0.5"⟩,
          ⟨"flow", 1, 102, "bcd", 1, "10.0.0.6"⟩]⟩ 0 2 (fun _ => false)
        (fun _ i => if i = 0 then ⟨true, none, 7⟩ else ⟨false, some [0x12, 0x34], 8⟩) 2 =
        some evs ∧
      (sends evs).map Payload.register = [some "level", some "flow", some "level", some "flow"] :=
  match pollCycle_envelopes_in_order.2 ⟨"level", 1, 100, "uint16", 1, "10.0.0.5"⟩
      ⟨"flow", 1, 102, "bcd", 1, "10.0.0.6"⟩ 0 0 0 2
      (fun _ i => if i = 0 then ⟨true, none, 7⟩ else ⟨false, some [0x12, 0x34], 8⟩)
      (fun _ _ =>
        ⟨(by decide :
            sensorOutput ⟨"level", 1, 100, "uint16", 1, "10.0.0.5"⟩ 2 ⟨true, none, 7⟩ ≠ []),
         (by decide :
            sensorOutput ⟨"flow", 1, 102, "bcd", 1, "10.0.0.6"⟩ 2
              ⟨false, some [0x12, 0x34], 8⟩ ≠ [])⟩) with
  | ⟨evs, hrun, hnames, _, _⟩ => ⟨evs, hrun, hnames⟩

end ModbusTcp
